import Mathlib

/-!
Verification of the pqdevnet-notebooks data pipeline against its specification.

The development shallowly embeds the pipeline's Python modules:

* `scripts/pipeline.py` — query-hash engine, date resolver, staleness detector;
* `scripts/fetch_data.py` — fetch orchestrator and manifest updater;
* `scripts/upload_r2.py` — content-addressed site publisher.

Modelling conventions:

* Python `dict`s keyed by strings are association lists (`List (String × α)`)
  with `List.lookup` as `get`; insertion-order iteration matches list order.
* Machine integers do not occur; Python ints are `Nat`/`Int` and the SHA-256
  word arithmetic reduces explicitly modulo `2 ^ 32`.
* Code that can raise is embedded in `Except String`; a `.error` value models
  an escaped Python exception.
* External collaborators (the ClickHouse producer callables, the S3/R2 client,
  the filesystem directory listing, the current UTC time) are parameters of
  the functions that consume them, mirroring the spec's collaborator contracts.
* `hashlib.sha256` is embedded as a full executable SHA-256 over byte lists,
  so fingerprints and blob keys are computed, not stubbed.
-/

/-! ## SHA-256 (`hashlib.sha256(...).hexdigest()`), over byte lists -/

/-- `2 ^ 32`, the SHA-256 word modulus. -/
def M32 : Nat := 4294967296

/-- Right-rotation of a 32-bit word. -/
def rotr (n w : Nat) : Nat := ((w >>> n) ||| (w <<< (32 - n))) % M32

/-- The 64 SHA-256 round constants. -/
def shaK : List Nat :=
  [1116352408, 1899447441, 3049323471, 3921009573, 961987163, 1508970993,
   2453635748, 2870763221, 3624381080, 310598401, 607225278, 1426881987,
   1925078388, 2162078206, 2614888103, 3248222580, 3835390401, 4022224774,
   264347078, 604807628, 770255983, 1249150122, 1555081692, 1996064986,
   2554220882, 2821834349, 2952996808, 3210313671, 3336571891, 3584528711,
   113926993, 338241895, 666307205, 773529912, 1294757372, 1396182291,
   1695183700, 1986661051, 2177026350, 2456956037, 2730485921, 2820302411,
   3259730800, 3345764771, 3516065817, 3600352804, 4094571909, 275423344,
   430227734, 506948616, 659060556, 883997877, 958139571, 1322822218,
   1537002063, 1747873779, 1955562222, 2024104815, 2227730452, 2361852424,
   2428436474, 2756734187, 3204031479, 3329325298]

/-- The eight 32-bit working variables of the SHA-256 state. -/
structure H8 where
  a : Nat
  b : Nat
  c : Nat
  d : Nat
  e : Nat
  f : Nat
  g : Nat
  h : Nat
deriving DecidableEq, Repr

/-- The SHA-256 initial hash value. -/
def shaH0 : H8 :=
  ⟨1779033703, 3144134277, 1013904242, 2773480762, 1359893119, 2600822924, 528734635, 1541459225⟩

/-- A 64-bit value as eight big-endian bytes (the padded bit-length field). -/
def beBytes8 (n : Nat) : List Nat :=
  [(n >>> 56) % 256, (n >>> 48) % 256, (n >>> 40) % 256, (n >>> 32) % 256,
   (n >>> 24) % 256, (n >>> 16) % 256, (n >>> 8) % 256, n % 256]

/-- SHA-256 message padding: `0x80`, zeros to 56 mod 64, 8-byte bit length. -/
def padMsg (msg : List Nat) : List Nat :=
  let len := msg.length
  let padZeros := (119 - len % 64) % 64
  msg ++ [0x80] ++ List.replicate padZeros 0 ++ beBytes8 (len * 8)

/-- Split a list into chunks of `n` elements; fuel-structural so that it
reduces inside the kernel (the fuel is the list length, always sufficient
for `n ≥ 1`). -/
def chunksGo (n : Nat) : Nat → List Nat → List (List Nat)
  | _, [] => []
  | 0, _ :: _ => []
  | fuel + 1, x :: xs => (x :: xs).take n :: chunksGo n fuel ((x :: xs).drop n)

/-- Split a list into chunks of `n ≥ 1` elements. -/
def chunksOf (n : Nat) (l : List Nat) : List (List Nat) :=
  chunksGo n l.length l

/-- Four big-endian bytes to one 32-bit word. -/
def toWord32 (bs : List Nat) : Nat :=
  bs.foldl (fun acc b => acc * 256 + b) 0

/-- One step of the SHA-256 message-schedule extension. -/
def extendStep (acc : List Nat) : List Nat :=
  let i := acc.length
  let w15 := acc.getD (i - 15) 0
  let w2 := acc.getD (i - 2) 0
  let w16 := acc.getD (i - 16) 0
  let w7 := acc.getD (i - 7) 0
  let s0 := (rotr 7 w15) ^^^ (rotr 18 w15) ^^^ (w15 >>> 3)
  let s1 := (rotr 17 w2) ^^^ (rotr 19 w2) ^^^ (w2 >>> 10)
  acc ++ [(w16 + s0 + w7 + s1) % M32]

/-- The 64-word message schedule of one 64-byte block. -/
def buildW (block : List Nat) : List Nat :=
  (List.range 48).foldl (fun acc _ => extendStep acc) ((chunksOf 4 block).map toWord32)

/-- One SHA-256 compression round. -/
def shaRound (st : H8) (kw : Nat × Nat) : H8 :=
  let s1 := (rotr 6 st.e) ^^^ (rotr 11 st.e) ^^^ (rotr 25 st.e)
  let ch := (st.e &&& st.f) ^^^ ((st.e ^^^ (M32 - 1)) &&& st.g)
  let t1 := (st.h + s1 + ch + kw.1 + kw.2) % M32
  let s0 := (rotr 2 st.a) ^^^ (rotr 13 st.a) ^^^ (rotr 22 st.a)
  let mj := (st.a &&& st.b) ^^^ (st.a &&& st.c) ^^^ (st.b &&& st.c)
  let t2 := (s0 + mj) % M32
  ⟨(t1 + t2) % M32, st.a, st.b, st.c, (st.d + t1) % M32, st.e, st.f, st.g⟩

/-- Compress one 64-byte block into the running hash value. -/
def compressBlock (hv : H8) (block : List Nat) : H8 :=
  let w := buildW block
  let st := (shaK.zip w).foldl shaRound hv
  ⟨(hv.a + st.a) % M32, (hv.b + st.b) % M32, (hv.c + st.c) % M32, (hv.d + st.d) % M32,
   (hv.e + st.e) % M32, (hv.f + st.f) % M32, (hv.g + st.g) % M32, (hv.h + st.h) % M32⟩

/-- The eight 32-bit digest words of a byte message. -/
def sha256Words (msg : List Nat) : List Nat :=
  let hv := (chunksOf 64 (padMsg msg)).foldl compressBlock shaH0
  [hv.a, hv.b, hv.c, hv.d, hv.e, hv.f, hv.g, hv.h]

/-- The sixteen lowercase hex digits, in value order. -/
def hexDigits : List Char := "0123456789abcdef".toList

/-- Hex digit of a nibble value. -/
def hexChar (n : Nat) : Char := hexDigits.getD n '0'

/-- Whether a character is a lowercase hex digit. -/
def isHexChar (c : Char) : Bool := hexDigits.contains c

/-- One 32-bit word as eight hex characters, big-endian, zero-padded —
exactly one word's worth of CPython's `hexdigest()` output. -/
def word8hex (w : Nat) : List Char :=
  [hexChar (w / 16 ^ 7 % 16), hexChar (w / 16 ^ 6 % 16), hexChar (w / 16 ^ 5 % 16),
   hexChar (w / 16 ^ 4 % 16), hexChar (w / 16 ^ 3 % 16), hexChar (w / 16 ^ 2 % 16),
   hexChar (w / 16 % 16), hexChar (w % 16)]

/-- `hashlib.sha256(msg).hexdigest()`: the 64-character lowercase hex digest. -/
def sha256hex (msg : List Nat) : String :=
  String.mk ((sha256Words msg).map word8hex).flatten

/-- UTF-8 encoding of one character (Python `str.encode()` on one code point). -/
def utf8Bytes (c : Char) : List Nat :=
  let n := c.toNat
  if n < 0x80 then [n]
  else if n < 0x800 then [0xC0 ||| (n >>> 6), 0x80 ||| (n &&& 0x3F)]
  else if n < 0x10000 then
    [0xE0 ||| (n >>> 12), 0x80 ||| ((n >>> 6) &&& 0x3F), 0x80 ||| (n &&& 0x3F)]
  else
    [0xF0 ||| (n >>> 18), 0x80 ||| ((n >>> 12) &&& 0x3F), 0x80 ||| ((n >>> 6) &&& 0x3F),
     0x80 ||| (n &&& 0x3F)]

/-- Python `s.encode()`: UTF-8 bytes of a string. -/
def strBytes (s : String) : List Nat :=
  (s.toList.map utf8Bytes).flatten

/-! ## Python string comparison and `sorted(..., reverse=True)`

Python compares strings lexicographically by code point; CPython `sorted` is
stable. Lean's built-in `String` order is iterator-based and does not reduce
in the kernel, so the comparison is embedded directly on character lists. -/

/-- Lexicographic `≤` on character lists, by code point — Python `str <=`. -/
def charsLe : List Char → List Char → Bool
  | [], _ => true
  | _ :: _, [] => false
  | a :: as, b :: bs =>
    if a.toNat < b.toNat then true
    else if b.toNat < a.toNat then false
    else charsLe as bs

/-- Strict lexicographic `<` on character lists — Python `str <`. -/
def charsLt : List Char → List Char → Bool
  | [], [] => false
  | [], _ :: _ => true
  | _ :: _, [] => false
  | a :: as, b :: bs =>
    if a.toNat < b.toNat then true
    else if b.toNat < a.toNat then false
    else charsLt as bs

/-- Python `a <= b` on strings. -/
def strLe (a b : String) : Bool := charsLe a.toList b.toList

/-- Python `a < b` on strings. -/
def strLt (a b : String) : Bool := charsLt a.toList b.toList

/-- Insert into a descending-sorted list, keeping it descending. -/
def insertDesc (x : String) : List String → List String
  | [] => [x]
  | y :: ys => if strLe x y then y :: insertDesc x ys else x :: y :: ys

/-- Python `sorted(l, reverse=True)` on strings: descending lexicographic. -/
def sortDesc (l : List String) : List String := l.foldr insertDesc []

/-- The descending order used by `sortDesc`, as a relation. -/
def descOrder (a b : String) : Prop := strLe b a = true

theorem charsLe_total (a b : List Char) : charsLe a b = true ∨ charsLe b a = true := by
  induction a generalizing b with
  | nil => left; rfl
  | cons x xs ih =>
    cases b with
    | nil => right; rfl
    | cons y ys =>
      simp only [charsLe]
      rcases Nat.lt_trichotomy x.toNat y.toNat with h | h | h
      · left; simp [h]
      · have h2 : ¬ x.toNat < y.toNat := by omega
        have h3 : ¬ y.toNat < x.toNat := by omega
        simp [h, h2, h3]
        exact ih ys
      · right; simp [h]

theorem charsLe_trans {a b c : List Char} (h1 : charsLe a b = true) (h2 : charsLe b c = true) :
    charsLe a c = true := by
  induction a generalizing b c with
  | nil => rfl
  | cons x xs ih =>
    cases b with
    | nil => simp [charsLe] at h1
    | cons y ys =>
      cases c with
      | nil => simp [charsLe] at h2
      | cons z zs =>
        simp only [charsLe] at h1 h2 ⊢
        by_cases hxy : x.toNat < y.toNat <;> by_cases hyx : y.toNat < x.toNat <;>
          by_cases hyz : y.toNat < z.toNat <;> by_cases hzy : z.toNat < y.toNat <;>
            by_cases hxz : x.toNat < z.toNat <;> by_cases hzx : z.toNat < x.toNat <;>
              simp only [hxy, hyx, hyz, hzy, hxz, hzx, if_true, if_false] <;>
                simp only [hxy, hyx, hyz, hzy, hxz, hzx, if_true, if_false] at h1 h2 <;>
                  first | rfl | omega | exact ih h1 h2 | simp_all

theorem strLe_total (a b : String) : strLe a b = true ∨ strLe b a = true :=
  charsLe_total a.toList b.toList

theorem strLe_trans {a b c : String} (h1 : strLe a b = true) (h2 : strLe b c = true) :
    strLe a c = true :=
  charsLe_trans h1 h2

theorem insertDesc_perm (x : String) (l : List String) : (insertDesc x l).Perm (x :: l) := by
  induction l with
  | nil => exact List.Perm.refl _
  | cons y ys ih =>
    simp only [insertDesc]
    by_cases h : strLe x y = true
    · simp only [h, if_true]
      exact ((ih.cons y).trans (List.Perm.swap x y ys))
    · simp [h]

theorem sortDesc_perm (l : List String) : (sortDesc l).Perm l := by
  induction l with
  | nil => exact List.Perm.refl _
  | cons y ys ih =>
    exact (insertDesc_perm y (sortDesc ys)).trans (ih.cons y)

theorem mem_sortDesc {x : String} {l : List String} : x ∈ sortDesc l ↔ x ∈ l :=
  (sortDesc_perm l).mem_iff

theorem insertDesc_sorted {x : String} {l : List String} (h : List.Sorted descOrder l) :
    List.Sorted descOrder (insertDesc x l) := by
  induction l with
  | nil => simp [insertDesc, List.Sorted]
  | cons y ys ih =>
    simp only [insertDesc]
    rcases List.sorted_cons.mp h with ⟨hy, hys⟩
    by_cases hxy : strLe x y = true
    · simp only [hxy, if_true]
      apply List.sorted_cons.mpr
      constructor
      · intro b hb
        rcases List.mem_cons.mp ((insertDesc_perm x ys).mem_iff.mp hb) with hb1 | hbys
        · rw [hb1]; exact hxy
        · exact hy b hbys
      · exact ih hys
    · simp only [hxy, if_false]
      apply List.sorted_cons.mpr
      constructor
      · intro b hb
        rcases List.mem_cons.mp hb with hb1 | hbys
        · rw [hb1]
          rcases strLe_total x y with hc | hc
          · exact absurd hc hxy
          · exact hc
        · exact strLe_trans (hy b hbys)
            (by rcases strLe_total x y with hc | hc; exact absurd hc hxy; exact hc)
      · exact h

theorem sortDesc_sorted (l : List String) : List.Sorted descOrder (sortDesc l) := by
  induction l with
  | nil => simp [sortDesc, List.Sorted]
  | cons y ys ih => exact insertDesc_sorted ih

/-! ## `scripts/pipeline.py`: hash engine and staleness detector -/

/-- One entry of `config["queries"]` in `pipeline.yaml`. -/
structure QueryCfg where
  module : String
  function : String
  output_file : String
  /-- The normalized source dump that `compute_query_hash(module, function)`
  hashes: the string `ast.dump(tree, annotate_fields=True)` after importing
  the module, taking `inspect.getsource`, parsing, and stripping leading
  docstrings. The Python reflection that produces it is host-interpreter
  behaviour and is taken as an input: `some dump` when the function can be
  located and parsed, `none` when that lookup raises. -/
  src : Option String
deriving DecidableEq

/-- `StaleReason` from `pipeline.py`. -/
inductive StaleReason where
  | QUERY_CHANGED
  | DATA_MISSING
deriving DecidableEq, Repr

/-- `StalenessReport` from `pipeline.py`. -/
structure StalenessReport where
  date : String
  query_id : String
  reason : StaleReason
  current_hash : String
  stored_hash : Option String
deriving DecidableEq, Repr

/-- `compute_query_hash`, applied to the normalized AST dump it hashes:
`hashlib.sha256(ast_dump.encode()).hexdigest()[:12]`. -/
def compute_query_hash (ast_dump : String) : String :=
  String.mk ((sha256hex (strBytes ast_dump)).toList.take 12)

/-- The current fingerprint of one configured query, with the
`try/except` of `compute_all_query_hashes`: the 12-hex-character digest of
its source dump, or the sentinel `"error"` when hashing raises. -/
def currentHash (q : QueryCfg) : String :=
  match q.src with
  | some dump => compute_query_hash dump
  | none => "error"

/-- `compute_all_query_hashes`: one entry per configured query, `"error"`
for a query whose hashing raises, never raising itself. -/
def compute_all_query_hashes (queries : List (String × QueryCfg)) : List (String × String) :=
  queries.map (fun q => (q.1, currentHash q.2))

/-- One per-date, per-query record of the data manifest (the metadata dict
written by `fetch_query`). `query_hash` is optional because a manifest read
from JSON may lack the key or hold `null`. -/
structure QueryRecord where
  fetched_at : String
  query_hash : Option String
  row_count : Int
  file_size_bytes : Nat
deriving DecidableEq, Repr

/-- The persisted pipeline manifest (`manifest.json`). `schema_version` is
optional to model a v1 file without the key. -/
structure PipelineManifest where
  schema_version : Option String
  dates : List String
  latest : Option String
  query_hashes : List (String × String)
  date_queries : List (String × List (String × QueryRecord))
  updated_at : Option String
deriving DecidableEq

/-- The `dates.rolling` table of `pipeline.yaml`. -/
structure DatesRolling where
  window : Int
  start : Option String
deriving DecidableEq

/-- The `dates.range` table of `pipeline.yaml`. `end_` models the `end` key
(a Lean keyword): absent or `null` maps to `none`. -/
structure DatesRange where
  start : String
  end_ : Option String
deriving DecidableEq

/-- The `dates` table of `pipeline.yaml`: a mode tag plus the per-mode
tables, each optional because the YAML key may be absent. -/
structure DatesConfig where
  mode : String
  rolling : Option DatesRolling
  range : Option DatesRange
  list : Option (List String)
deriving DecidableEq

/-- The loaded `pipeline.yaml`: the `dates` policy (optional: the key may be
absent, in which case reading it raises `KeyError`) and the `queries` dict. -/
structure Config where
  dates : Option DatesConfig
  queries : List (String × QueryCfg)
deriving DecidableEq

/-- `manifest.get("date_queries", {}).get(date, {}).get(query_id, {})
.get("query_hash")`: the stored fingerprint for a (date, query) pair, `none`
when any level is absent or the value is `null`. -/
def storedHashAt (manifest : PipelineManifest) (date query_id : String) : Option String :=
  (((manifest.date_queries.lookup date).getD []).lookup query_id).bind (fun r => r.query_hash)

/-- The per-pair body of the `check_staleness` loop: `if not stored_hash`
(Python falsy: `None` or `""`) appends a `DATA_MISSING` report with stored
hash `None`; `elif stored_hash != current_hash` appends a `QUERY_CHANGED`
report carrying both hashes; otherwise appends nothing. -/
def stalenessEntry (date query_id current_hash : String) (stored_hash : Option String) :
    Option StalenessReport :=
  match stored_hash with
  | none => some ⟨date, query_id, .DATA_MISSING, current_hash, none⟩
  | some s =>
    if s = "" then some ⟨date, query_id, .DATA_MISSING, current_hash, none⟩
    else if s ≠ current_hash then some ⟨date, query_id, .QUERY_CHANGED, current_hash, some s⟩
    else none

/-- The inner loop of `check_staleness` for one date: one pass over
`config["queries"]`. `current_hashes[query_id]` is the entry the surrounding
function computed from the same `config["queries"]` dict, i.e.
`currentHash` of that query's config. -/
def stalenessForDate (config : Config) (manifest : PipelineManifest) (date : String) :
    List StalenessReport :=
  config.queries.filterMap (fun q =>
    stalenessEntry date q.1 (currentHash q.2) (storedHashAt manifest date q.1))

/-- `check_staleness(config, manifest, dates)`: the reports accumulated over
the date loop, in iteration order. -/
def check_staleness (config : Config) (manifest : PipelineManifest) (dates : List String) :
    List StalenessReport :=
  (dates.map (stalenessForDate config manifest)).flatten

/-! ## Calendar arithmetic for the date resolver

`datetime.date` values are embedded as day numbers (days since 1970-01-01,
an `Int`), with the standard civil-calendar conversions. -/

/-- Gregorian leap-year rule. -/
def isLeap (y : Nat) : Bool := (y % 4 == 0 && y % 100 != 0) || (y % 400 == 0)

/-- Days in a month of the proleptic Gregorian calendar. -/
def daysInMonth (y m : Nat) : Nat :=
  if m = 2 then (if isLeap y then 29 else 28)
  else if m = 4 ∨ m = 6 ∨ m = 9 ∨ m = 11 then 30 else 31

/-- Day number of a civil date (days since 1970-01-01). -/
def daysFromCivil (y m d : Nat) : Int :=
  let y2 := if m ≤ 2 then y - 1 else y
  let era := y2 / 400
  let yoe := y2 - era * 400
  let mp := (m + 9) % 12
  let doy := (153 * mp + 2) / 5 + d - 1
  let doe := yoe * 365 + yoe / 4 - yoe / 100 + doy
  (era * 146097 + doe : Int) - 719468

/-- Civil date (year, month, day) of a day number. -/
def civilFromDays (z : Int) : Nat × Nat × Nat :=
  let zn := (z + 719468).toNat
  let era := zn / 146097
  let doe := zn % 146097
  let yoe := (doe - doe / 1460 + doe / 36524 - doe / 146096) / 365
  let y := yoe + era * 400
  let doy := doe - (365 * yoe + yoe / 4 - yoe / 100)
  let mp := (5 * doy + 2) / 153
  let d := doy - (153 * mp + 2) / 5 + 1
  let m := if mp < 10 then mp + 3 else mp - 9
  (if m ≤ 2 then y + 1 else y, m, d)

/-- Two-digit zero-padded decimal. -/
def pad2 (n : Nat) : String := if n < 10 then "0" ++ toString n else toString n

/-- Four-digit zero-padded decimal. -/
def pad4 (n : Nat) : String :=
  if n < 10 then "000" ++ toString n
  else if n < 100 then "00" ++ toString n
  else if n < 1000 then "0" ++ toString n
  else toString n

/-- `date.strftime("%Y-%m-%d")` of a day number. -/
def dayToStr (z : Int) : String :=
  let c := civilFromDays z
  pad4 c.1 ++ "-" ++ pad2 c.2.1 ++ "-" ++ pad2 c.2.2

/-- Split a character list on a separator character. -/
def splitOnChar (c : Char) : List Char → List (List Char)
  | [] => [[]]
  | x :: xs =>
    let r := splitOnChar c xs
    if x = c then [] :: r
    else
      match r with
      | [] => [[x]]
      | h :: t => (x :: h) :: t

/-- Decimal value of a nonempty all-digit character list, else `none`. -/
def parseNatDigits (l : List Char) : Option Nat :=
  if l.isEmpty then none
  else if l.all (fun ch => ch.isDigit) then
    some (l.foldl (fun acc ch => acc * 10 + (ch.toNat - 48)) 0)
  else none

/-- `datetime.strptime(s, "%Y-%m-%d").date()` as a day number: three dash-
separated decimal fields (year up to 4 digits, month and day up to 2),
validated against `datetime`'s ranges (year 1–9999, real calendar day);
`none` models the `ValueError` raised on any malformed input. -/
def strptimeYmd (s : String) : Option Int :=
  match splitOnChar '-' s.toList with
  | [ys, ms, ds] =>
    match parseNatDigits ys, parseNatDigits ms, parseNatDigits ds with
    | some y, some m, some d =>
      if 1 ≤ y ∧ y ≤ 9999 ∧ ys.length ≤ 4 ∧ ms.length ≤ 2 ∧ ds.length ≤ 2 ∧
         1 ≤ m ∧ m ≤ 12 ∧ 1 ≤ d ∧ d ≤ daysInMonth y m
      then some (daysFromCivil y m d) else none
    | _, _, _ => none
  | _ => none

/-! ## `resolve_dates` -/

/-- The `range(1, window + 1)` loop of rolling mode with its `break` at the
optional start floor; `i` counts up from 1, fuel counts the remaining
iterations. -/
def rollingGo (today : Int) (startLimit : Option Int) : Nat → Int → List String
  | 0, _ => []
  | fuel + 1, i =>
    let date := today - i
    let below := match startLimit with
      | some sl => decide (date < sl)
      | none => false
    if below then []
    else dayToStr date :: rollingGo today startLimit fuel (i + 1)

/-- `if "start" in rolling_config and rolling_config["start"]` (Python
truthiness) followed by `strptime`: the optional rolling start floor. -/
def rollingStartLimit (s : Option String) : Except String (Option Int) :=
  match s with
  | some str =>
    if str = "" then .ok none
    else
      match strptimeYmd str with
      | some d => .ok (some d)
      | none => .error "ValueError: time data does not match format"
  | none => .ok none

/-- The `while current <= end` loop of range mode, ascending; the fuel
`end + 1 - start` is the exact iteration count, zero when `start > end`. -/
def rangeGo (fin : Int) : Nat → Int → List String
  | 0, _ => []
  | fuel + 1, cur =>
    if cur ≤ fin then dayToStr cur :: rangeGo fin fuel (cur + 1) else []

/-- Range-mode date generation (the loop's accumulated list). -/
def rangeDates (start fin : Int) : List String :=
  rangeGo fin (fin + 1 - start).toNat start

/-- `if "end" in range_config and range_config["end"]` (Python truthiness):
the range end date, defaulting to yesterday. -/
def rangeEndDate (e : Option String) (yesterday : Int) : Except String Int :=
  match e with
  | some str =>
    if str = "" then .ok yesterday
    else
      match strptimeYmd str with
      | some d => .ok d
      | none => .error "ValueError: time data does not match format"
  | none => .ok yesterday

/-- The policy-evaluation part of `resolve_dates` (everything after the
override check): mode dispatch on `config["dates"]`. `today` is
`datetime.now(timezone.utc).date()` as a day number. Required scalar keys
(`rolling.window`, `range.start`) are non-optional fields: a YAML file
omitting them raises a `KeyError` not modelled here. -/
def resolvePolicy (config : Config) (today : Int) : Except String (List String) :=
  match config.dates with
  | none => .error "KeyError: dates"
  | some dc =>
    let yesterday := today - 1
    if dc.mode = "rolling" then
      match dc.rolling with
      | none => .error "KeyError: rolling"
      | some rc =>
        match rollingStartLimit rc.start with
        | .error e => .error e
        | .ok startLimit => .ok (rollingGo today startLimit rc.window.toNat 1)
    else if dc.mode = "range" then
      match dc.range with
      | none => .error "KeyError: range"
      | some rc =>
        match strptimeYmd rc.start with
        | none => .error "ValueError: time data does not match format"
        | some start =>
          match rangeEndDate rc.end_ yesterday with
          | .error e => .error e
          | .ok fin => .ok (sortDesc (rangeDates start fin))
    else if dc.mode = "list" then
      match dc.list with
      | none => .error "KeyError: list"
      | some l => .ok (sortDesc l)
    else .error ("Unknown date mode: " ++ dc.mode)

/-- `resolve_dates(config, override_date)`. `if override_date:` is Python
truthiness: a non-empty override string returns immediately; `None` or `""`
falls through to policy evaluation. -/
def resolve_dates (config : Config) (override_date : Option String) (today : Int) :
    Except String (List String) :=
  match override_date with
  | some d => if d = "" then resolvePolicy config today else .ok [d]
  | none => resolvePolicy config today

/-! ## `scripts/fetch_data.py`: work orchestrator and manifest updater -/

/-- `fetch_query`: builds the per-query metadata dict after running the
producer. The producer callable (the ClickHouse fetcher resolved from the
query's module/function) is an external collaborator; its outcome is a
parameter: `.ok (row_count, file_size)` — `file_size` folding in the
`output_path.stat().st_size if output_path.exists() else 0` read — or
`.error e` for a raised exception (including `get_fetcher` import errors).
`now` is the `fetched_at` UTC timestamp rendering. -/
def fetch_query (now : String) (query_hash : String)
    (producer : Except String (Int × Nat)) : Except String QueryRecord :=
  match producer with
  | .error e => .error e
  | .ok rc => .ok ⟨now, some query_hash, rc.1, rc.2⟩

/-- The body of `fetch_date`'s query loop, one query at a time:
`queries_to_fetch` follows Python truthiness (`None` or `[]` disable the
filter); a `query_hashes[query_id]` `KeyError` is raised inside the `try`
and caught like a producer failure. -/
def fetchDateStep (producers : String → Except String (Int × Nat))
    (query_hashes : List (String × String))
    (queries_to_fetch : Option (List String)) (now : String)
    (acc : List (String × QueryRecord) × List (String × String))
    (q : String × QueryCfg) :
    List (String × QueryRecord) × List (String × String) :=
  let skip := match queries_to_fetch with
    | some l => !l.isEmpty && !(l.contains q.1)
    | none => false
  if skip then acc
  else
    match query_hashes.lookup q.1 with
    | none => (acc.1, acc.2 ++ [(q.1, "KeyError: " ++ q.1)])
    | some qh =>
      match fetch_query now qh (producers q.1) with
      | .ok meta => (acc.1 ++ [(q.1, meta)], acc.2)
      | .error e => (acc.1, acc.2 ++ [(q.1, e)])

/-- `fetch_date`: one pass over `config["queries"]` with a per-query
`try/except` (`fetchDateStep`). Returns the successes dict (the function's
return value) and the failures (the `-> ERROR:` lines it logs), both in
iteration order. -/
def fetch_date (queries : List (String × QueryCfg))
    (producers : String → Except String (Int × Nat))
    (query_hashes : List (String × String))
    (queries_to_fetch : Option (List String)) (now : String) :
    List (String × QueryRecord) × List (String × String) :=
  queries.foldl (fetchDateStep producers query_hashes queries_to_fetch now) ([], [])

/-- Python `d[k] = v` on an association list: overwrite in place, else
append (dicts preserve insertion order). -/
def dictInsert {α : Type} (d : List (String × α)) (k : String) (v : α) :
    List (String × α) :=
  if d.any (fun p => p.1 == k) then d.map (fun p => if p.1 == k then (k, v) else p)
  else d ++ [(k, v)]

/-- Python `d.update(kvs)`. -/
def dictUpdate {α : Type} (d kvs : List (String × α)) : List (String × α) :=
  kvs.foldl (fun acc p => dictInsert acc p.1 p.2) d

/-- Python `d.pop(k, None)` (the removal effect). -/
def dictPop {α : Type} (d : List (String × α)) (k : String) : List (String × α) :=
  d.filter (fun p => p.1 ≠ k)

/-- The fresh manifest structure the loaders create when `manifest.json`
does not exist. -/
def freshManifest : PipelineManifest :=
  { schema_version := some "2.0", dates := [], latest := none,
    query_hashes := [], date_queries := [], updated_at := none }

/-- The directory filter of `update_manifest`'s rescan:
`d.is_dir() and len(d.name) == 10 and d.name[0].isdigit()` (the listing
parameter, from `output_dir.iterdir()`, carries directory names only). -/
def goodDateDir (name : String) : Bool :=
  name.length == 10 && (name.toList.headD ' ').isDigit

/-- The body of `update_manifest`'s merge loop over `date_results`:
`if date not in manifest["date_queries"]: ...[date] = {}` followed by
`...[date].update(queries)`. -/
def mergeDateStep (dq : List (String × List (String × QueryRecord)))
    (p : String × List (String × QueryRecord)) :
    List (String × List (String × QueryRecord)) :=
  let dq2 := if dq.any (fun q => q.1 == p.1) then dq else dq ++ [(p.1, [])]
  dq2.map (fun q => if q.1 == p.1 then (q.1, dictUpdate q.2 p.2) else q)

/-- `update_manifest`. External state is passed in: `dirListing` is the
directory-name listing of `output_dir`, `now` the UTC timestamp rendering,
`cutoff` the retention cutoff date string when `max_days` is truthy (`None`
or `0` disables pruning — `if max_days:`). The `shutil.rmtree` on pruned
date directories is a filesystem effect outside the returned manifest
value. String comparison `d >= cutoff` is embedded as `¬ (d < cutoff)`,
equivalent for Python's total string order. -/
def update_manifest (dirListing : List String) (now : String)
    (manifest0 : PipelineManifest)
    (date_results : List (String × List (String × QueryRecord)))
    (query_hashes : List (String × String)) (cutoff : Option String) :
    PipelineManifest :=
  let m1 :=
    if manifest0.schema_version.isNone then
      { manifest0 with schema_version := some "2.0", date_queries := [] }
    else manifest0
  let dq := date_results.foldl mergeDateStep m1.date_queries
  let dates := sortDesc ((dirListing.filter goodDateDir).dedup)
  let pruned :=
    match cutoff with
    | some c =>
      let dates_to_remove := dates.filter (fun d => strLt d c)
      (dates.filter (fun d => !(strLt d c)),
       dates_to_remove.foldl (fun acc d => dictPop acc d) dq)
    | none => (dates, dq)
  { m1 with
    query_hashes := query_hashes,
    date_queries := pruned.2,
    dates := pruned.1,
    latest := pruned.1.head?,
    updated_at := some now }

/-! ## `scripts/upload_r2.py`: content-addressed publisher -/

/-- `hash_file`: SHA-256 of the file bytes, first 16 hex characters. -/
def hash_file (contents : List Nat) : String :=
  String.mk ((sha256hex contents).toList.take 16)

/-- `get_extension`: the path suffix, or `".bin"` when there is none. -/
def get_extension (suffix : String) : String :=
  if suffix = "" then ".bin" else suffix

/-- One regular file under the `dist` tree: its manifest path (leading
slash plus the path relative to `dist`), its `Path.suffix`, and its bytes. -/
structure SiteFile where
  path : String
  suffix : String
  bytes : List Nat
deriving DecidableEq

/-- The blob key assigned in the scan loop:
`f"blobs/{content_hash}{extension}"` (string interpolation spelled out). -/
def blob_key (f : SiteFile) : String :=
  "blobs/" ++ hash_file f.bytes ++ get_extension f.suffix

/-- One deployment-manifest entry: `{hash, blob, size}`. -/
structure BlobEntry where
  hash : String
  blob : String
  size : Nat
deriving DecidableEq

/-- Outcome of `s3.head_object` on a key: success, a 404 `ClientError`, or
any other `ClientError`. -/
inductive HeadResult where
  | found
  | notFound
  | err (msg : String)
deriving DecidableEq

/-- Whether a head outcome is a non-404 error. -/
def HeadResult.isErr : HeadResult → Bool
  | .err _ => true
  | _ => false

/-- The remote blob store (the S3/R2 client) as collaborator behaviour:
per-key `head_object` outcome and per-key `upload_file` success. -/
structure BlobStore where
  head : String → HeadResult
  put : String → Bool

/-- `blob_exists`: `True` on success, `False` on a 404 `ClientError`,
re-raises any other error. -/
def blob_exists (s3 : BlobStore) (key : String) : Except String Bool :=
  match s3.head key with
  | .found => .ok true
  | .notFound => .ok false
  | .err e => .error e

/-- A write the publisher performs against the remote store. -/
inductive StoreEv where
  | putBlob (key : String)
  | putManifest (key : String)
deriving DecidableEq

/-- The stats dict `upload_site` returns, plus the deployment-manifest
content it serialises and the key it writes it under (`none` on dry runs,
whose stats dict has no `manifest_key`). -/
structure UploadStats where
  total_files : Nat
  total_size : Nat
  new_blobs : Nat
  reused_blobs : Nat
  bytes_uploaded : Nat
  manifest_key : Option String
  manifest : List (String × BlobEntry)
deriving DecidableEq

/-- The per-file body of `upload_site`'s scan loop: extend the deployment
manifest and classify the file's blob key as existing or to-upload. A
`blob_exists` error escapes, aborting the whole scan. -/
def scanStep (s3 : BlobStore)
    (acc : Except String (List (String × BlobEntry) × List (SiteFile × String) × List String))
    (f : SiteFile) :
    Except String (List (String × BlobEntry) × List (SiteFile × String) × List String) :=
  match acc with
  | .error e => .error e
  | .ok (man, toUp, exist) =>
    let content_hash := hash_file f.bytes
    let extension := get_extension f.suffix
    let key := "blobs/" ++ content_hash ++ extension
    let man2 := dictInsert man f.path ⟨content_hash, key, f.bytes.length⟩
    match blob_exists s3 key with
    | .error e => .error e
    | .ok true => .ok (man2, toUp, exist ++ [key])
    | .ok false => .ok (man2, toUp ++ [(f, key)], exist)

/-- Phase 1 of `upload_site`: the scan loop over the tree in `rglob` order,
a fold of `scanStep`. -/
def scanPhase (files : List SiteFile) (s3 : BlobStore) :
    Except String (List (String × BlobEntry) × List (SiteFile × String) × List String) :=
  files.foldl (scanStep s3) (.ok ([], [], []))

/-- Phase 2 of `upload_site`: upload the new blobs, accumulating put events
and `bytes_uploaded`; the first failure escapes as a fatal error. The
thread pool is modelled in submission order; the ordering fact the claims
use — the manifest write happens strictly after the whole upload phase —
is preserved by the sequential model. -/
def uploadStep (s3 : BlobStore) (acc : List StoreEv × Except String Nat)
    (p : SiteFile × String) : List StoreEv × Except String Nat :=
  match acc.2 with
  | .error _ => acc
  | .ok bytes =>
    if s3.put p.2 then (acc.1 ++ [.putBlob p.2], .ok (bytes + p.1.bytes.length))
    else (acc.1, .error ("upload failed: " ++ p.2))

/-- The upload loop as a fold of `uploadStep` over the new blobs. -/
def uploadPhase (s3 : BlobStore) (toUp : List (SiteFile × String)) :
    List StoreEv × Except String Nat :=
  toUp.foldl (uploadStep s3) ([], .ok 0)

/-- `upload_site`: scan, upload, then write the deployment manifest under
`manifests/<name>.json`. Returns the trace of store writes alongside the
stats dict or the escaped exception. -/
def upload_site (files : List SiteFile) (s3 : BlobStore) (manifest_name : String)
    (dry_run : Bool) : List StoreEv × Except String UploadStats :=
  match scanPhase files s3 with
  | .error e => ([], .error e)
  | .ok (man, toUp, exist) =>
    let total_files := man.length
    let total_size := (man.map (fun p => p.2.size)).sum
    let new_blobs := toUp.length
    let reused_blobs := exist.length
    if dry_run then
      ([], .ok ⟨total_files, total_size, new_blobs, reused_blobs, 0, none, man⟩)
    else
      match uploadPhase s3 toUp with
      | (evs, .error e) => (evs, .error e)
      | (evs, .ok bytes_uploaded) =>
        let manifest_key := "manifests/" ++ manifest_name ++ ".json"
        (evs ++ [.putManifest manifest_key],
         .ok ⟨total_files, total_size, new_blobs, reused_blobs, bytes_uploaded,
              some manifest_key, man⟩)

/-! ## Digest shape lemmas -/

theorem isHexChar_hexChar (n : Nat) : isHexChar (hexChar n) = true := by
  by_cases h : n < 16
  · interval_cases n <;> decide
  · have h16 : hexDigits.length ≤ n := by simp [hexDigits]; omega
    simp [hexChar, List.getD, List.getElem?_eq_none h16]
    decide

theorem mem_word8hex {c : Char} {w : Nat} (h : c ∈ word8hex w) : isHexChar c = true := by
  simp only [word8hex, List.mem_cons, List.not_mem_nil, or_false] at h
  rcases h with h | h | h | h | h | h | h | h <;> (rw [h]; exact isHexChar_hexChar _)

theorem sha256Words_length (msg : List Nat) : (sha256Words msg).length = 8 := rfl

theorem sha256hex_toList (msg : List Nat) :
    (sha256hex msg).toList = ((sha256Words msg).map word8hex).flatten := by
  simp [sha256hex]

theorem word8hex_length (w : Nat) : (word8hex w).length = 8 := rfl

theorem sha256hex_length (msg : List Nat) : (sha256hex msg).toList.length = 64 := by
  rw [sha256hex_toList]
  unfold sha256Words
  simp [word8hex]

theorem sha256hex_hex (msg : List Nat) :
    ∀ c ∈ (sha256hex msg).toList, isHexChar c = true := by
  intro c hc
  rw [sha256hex_toList] at hc
  rcases List.mem_flatten.mp hc with ⟨s, hs, hcs⟩
  rcases List.mem_map.mp hs with ⟨w, _, rfl⟩
  exact mem_word8hex hcs

theorem compute_query_hash_length (s : String) : (compute_query_hash s).length = 12 := by
  show (String.mk ((sha256hex (strBytes s)).toList.take 12)).length = 12
  have ht : (sha256hex (strBytes s)).toList.length = 64 := sha256hex_length (strBytes s)
  rw [String.length_mk, List.length_take]
  omega

theorem compute_query_hash_hex (s : String) :
    ((compute_query_hash s).toList.all isHexChar) = true := by
  apply List.all_eq_true.mpr
  intro c hc
  show isHexChar c = true
  have hc2 : c ∈ (sha256hex (strBytes s)).toList.take 12 := by
    simpa [compute_query_hash] using hc
  exact sha256hex_hex (strBytes s) c (List.take_subset 12 _ hc2)

theorem compute_query_hash_ne_error (s : String) : compute_query_hash s ≠ "error" := by
  intro h
  have := congrArg String.length h
  rw [compute_query_hash_length s] at this
  simp [String.length] at this

theorem currentHash_ne_empty (q : QueryCfg) : currentHash q ≠ "" := by
  unfold currentHash
  cases q.src with
  | none => decide
  | some dump =>
    intro h
    have := congrArg String.length h
    rw [compute_query_hash_length dump] at this
    simp [String.length] at this

/-- C10: every fingerprint `compute_query_hash` computes is exactly 12
lowercase hexadecimal characters — in particular never the 5-character
sentinel `"error"` — and `compute_all_query_hashes` returns a mapping with
one entry per configured query, in configuration order. -/
theorem compute_query_hash_wellformed (s : String) (queries : List (String × QueryCfg)) :
    (compute_query_hash s).length = 12 ∧
    ((compute_query_hash s).toList.all isHexChar) = true ∧
    compute_query_hash s ≠ "error" ∧
    (compute_all_query_hashes queries).map Prod.fst = queries.map Prod.fst := by
  refine ⟨compute_query_hash_length s, compute_query_hash_hex s,
    compute_query_hash_ne_error s, ?_⟩
  simp [compute_all_query_hashes]

/-! ## Date-resolver claims -/

/-- C9: a non-empty override date short-circuits `resolve_dates` entirely:
for every configuration — including one with an absent `dates` section, an
unrecognized mode tag, or an invalid range — the result is the
single-element list holding exactly the override string, which is itself
never validated against the `YYYY-MM-DD` format. -/
theorem resolve_dates_override (config : Config) (d : String) (today : Int)
    (hd : d ≠ "") : resolve_dates config (some d) today = .ok [d] := by
  simp [resolve_dates, hd]

/-- Witness for C9: a configuration with no `dates` section at all and an
override that is not a date. -/
theorem resolve_dates_override_witness :
    resolve_dates ⟨none, []⟩ (some "not-a-date") 0 = .ok ["not-a-date"] :=
  resolve_dates_override ⟨none, []⟩ "not-a-date" 0 (by decide)

/-- C6 (amended): with no override, an unrecognized mode tag raises a
`ValueError`; but a range whose configured start is strictly later than its
end does not raise — the `while current <= end` loop runs zero times and
the empty list is returned. -/
theorem resolve_dates_config_errors (config : Config) (dc : DatesConfig) (today : Int)
    (hdc : config.dates = some dc) :
    (dc.mode ≠ "rolling" → dc.mode ≠ "range" → dc.mode ≠ "list" →
      resolve_dates config none today = .error ("Unknown date mode: " ++ dc.mode)) ∧
    (∀ rc s es e, dc.mode = "range" → dc.range = some rc →
      strptimeYmd rc.start = some s → rc.end_ = some es → es ≠ "" →
      strptimeYmd es = some e → e < s →
      resolve_dates config none today = .ok []) := by
  constructor
  · intro h1 h2 h3
    simp [resolve_dates, resolvePolicy, hdc, h1, h2, h3]
  · intro rc s es e hm hr hs he hne hpe hlt
    have hfuel : (e + 1 - s).toNat = 0 := by omega
    simp [resolve_dates, resolvePolicy, hdc, hm, hr, hs, rangeEndDate, he, hne, hpe,
      rangeDates, hfuel, rangeGo, sortDesc]

/-- Witness for C6: both parts at concrete configurations — an unknown mode
tag `"weekly"`, and a range `2024-01-03 .. 2024-01-01`. -/
theorem resolve_dates_config_errors_witness :
    resolve_dates ⟨some ⟨"weekly", none, none, none⟩, []⟩ none 0 =
      .error "Unknown date mode: weekly" ∧
    resolve_dates ⟨some ⟨"range", none, some ⟨"2024-01-03", some "2024-01-01"⟩, none⟩, []⟩
      none 0 = .ok [] := by
  constructor
  · exact ((resolve_dates_config_errors ⟨some ⟨"weekly", none, none, none⟩, []⟩
      ⟨"weekly", none, none, none⟩ 0 rfl).1 (by decide) (by decide) (by decide)).trans rfl
  · exact (resolve_dates_config_errors
      ⟨some ⟨"range", none, some ⟨"2024-01-03", some "2024-01-01"⟩, none⟩, []⟩ _ 0 rfl).2
      ⟨"2024-01-03", some "2024-01-01"⟩ 19725 "2024-01-01" 19723
      rfl rfl (by decide) rfl (by decide) (by decide) (by decide)

/-- Counterexample for C6 as stated: a range with `start > end` does not
raise a configuration error — `resolve_dates` returns `.ok []`. -/
theorem resolve_dates_range_inverted_no_error :
    resolve_dates ⟨some ⟨"range", none, some ⟨"2024-01-03", some "2024-01-01"⟩, none⟩, []⟩
      none 0 = .ok ([] : List String) := rfl

/-- C7 (amended): in list mode with no override, `resolve_dates` returns
exactly the configured literal dates sorted newest-first — a permutation of
the configured list, so duplicates are preserved, not removed. -/
theorem resolve_dates_list_mode (config : Config) (dc : DatesConfig) (l : List String)
    (today : Int) (hdc : config.dates = some dc) (hm : dc.mode = "list")
    (hl : dc.list = some l) :
    resolve_dates config none today = .ok (sortDesc l) ∧
    (sortDesc l).Perm l ∧ List.Sorted descOrder (sortDesc l) := by
  refine ⟨?_, sortDesc_perm l, sortDesc_sorted l⟩
  simp [resolve_dates, resolvePolicy, hdc, hm, hl]

/-- Witness for C7 at a concrete two-date list configuration. -/
theorem resolve_dates_list_mode_witness :
    resolve_dates ⟨some ⟨"list", none, none, some ["2024-01-01", "2024-01-03"]⟩, []⟩ none 0 =
      .ok ["2024-01-03", "2024-01-01"] :=
  (resolve_dates_list_mode ⟨some ⟨"list", none, none, some ["2024-01-01", "2024-01-03"]⟩, []⟩
    _ _ 0 rfl rfl rfl).1.trans rfl

/-- Counterexample for C7 as stated: a configured list with a duplicated
date comes back with the duplicate intact — the same date twice. -/
theorem resolve_dates_list_duplicates :
    resolve_dates ⟨some ⟨"list", none, none, some ["2024-01-01", "2024-01-01"]⟩, []⟩ none 0 =
      .ok ["2024-01-01", "2024-01-01"] ∧
    (["2024-01-01", "2024-01-01"] : List String).count "2024-01-01" = 2 := by
  constructor
  · rfl
  · decide

/-! ## Staleness-detector claims -/

/-- Number of staleness-report entries for one (date, query) pair. -/
def countPair (reports : List StalenessReport) (date query_id : String) : Nat :=
  reports.countP (fun r => r.date == date && r.query_id == query_id)

theorem stalenessEntry_fields {date qid cur : String} {stored : Option String}
    {r : StalenessReport} (h : stalenessEntry date qid cur stored = some r) :
    r.date = date ∧ r.query_id = qid := by
  rcases stored with _ | sv
  · simp only [stalenessEntry] at h
    cases h
    exact ⟨rfl, rfl⟩
  · simp only [stalenessEntry] at h
    split_ifs at h <;> cases h <;> exact ⟨rfl, rfl⟩

theorem mem_filterMap_fields {manifest : PipelineManifest} {d : String}
    {r : StalenessReport} {qs : List (String × QueryCfg)}
    (h : r ∈ qs.filterMap
      (fun q => stalenessEntry d q.1 (currentHash q.2) (storedHashAt manifest d q.1))) :
    r.date = d ∧ r.query_id ∈ qs.map Prod.fst := by
  rcases List.mem_filterMap.mp h with ⟨q, hq, he⟩
  refine ⟨(stalenessEntry_fields he).1, ?_⟩
  rw [(stalenessEntry_fields he).2]
  exact List.mem_map.mpr ⟨q, hq, rfl⟩

theorem mem_stalenessForDate {config : Config} {manifest : PipelineManifest}
    {d : String} {r : StalenessReport} (h : r ∈ stalenessForDate config manifest d) :
    r.date = d ∧ r.query_id ∈ config.queries.map Prod.fst :=
  mem_filterMap_fields h

theorem countPair_forDate_ne {config : Config} {manifest : PipelineManifest}
    {d date qid : String} (hne : date ≠ d) :
    countPair (stalenessForDate config manifest d) date qid = 0 := by
  apply List.countP_eq_zero.mpr
  intro r hr
  rw [(mem_stalenessForDate hr).1]
  simp only [Bool.and_eq_true, beq_iff_eq, not_and]
  intro h1
  exact absurd h1.symm hne

theorem countPair_filterMap_queries (manifest : PipelineManifest) (d qid : String)
    (qcfg : QueryCfg) (qs : List (String × QueryCfg))
    (hq : (qs.map Prod.fst).Nodup) (hmem : (qid, qcfg) ∈ qs) :
    (qs.filterMap
        (fun q => stalenessEntry d q.1 (currentHash q.2) (storedHashAt manifest d q.1))).countP
          (fun r => r.date == d && r.query_id == qid) =
      (match stalenessEntry d qid (currentHash qcfg) (storedHashAt manifest d qid) with
        | some _ => 1
        | none => 0) := by
  induction qs with
  | nil => cases hmem
  | cons q rest ih =>
    have hq2 := (List.nodup_cons.mp hq).2
    have hq1 := (List.nodup_cons.mp hq).1
    rcases List.mem_cons.mp hmem with heq | hrest
    · subst heq
      have hrest0 : qid ∉ rest.map Prod.fst := hq1
      have hzero : (rest.filterMap
          (fun q => stalenessEntry d q.1 (currentHash q.2) (storedHashAt manifest d q.1))).countP
            (fun r => r.date == d && r.query_id == qid) = 0 := by
        apply List.countP_eq_zero.mpr
        intro r hr
        simp only [Bool.and_eq_true, beq_iff_eq, not_and]
        intro _ h2
        exact absurd (h2 ▸ (mem_filterMap_fields hr).2) hrest0
      rw [List.filterMap_cons]
      cases hsE : stalenessEntry d qid (currentHash qcfg) (storedHashAt manifest d qid) with
      | none => simp [hsE, hzero]
      | some rep =>
        have hf := stalenessEntry_fields hsE
        simp [hsE, List.countP_cons, hzero, hf.1, hf.2]
    · have hkey : qid ∈ rest.map Prod.fst := List.mem_map.mpr ⟨(qid, qcfg), hrest, rfl⟩
      have hne : q.1 ≠ qid := fun e => absurd (e ▸ hkey) hq1
      rw [List.filterMap_cons]
      cases hsE : stalenessEntry d q.1 (currentHash q.2) (storedHashAt manifest d q.1) with
      | none => exact ih hq2 hrest
      | some rep =>
        have hf := stalenessEntry_fields hsE
        rw [List.countP_cons]
        have : (rep.date == d && rep.query_id == qid) = false := by
          simp only [Bool.and_eq_false_iff, beq_eq_false_iff_ne]
          right
          rw [hf.2]
          exact hne
        simp [this, ih hq2 hrest]

theorem stalenessEntry_mem_forDate {config : Config} {manifest : PipelineManifest}
    {date qid : String} {qcfg : QueryCfg} {r : StalenessReport}
    (hmem : (qid, qcfg) ∈ config.queries)
    (he : stalenessEntry date qid (currentHash qcfg) (storedHashAt manifest date qid) = some r) :
    r ∈ stalenessForDate config manifest date :=
  List.mem_filterMap.mpr ⟨(qid, qcfg), hmem, he⟩

theorem check_staleness_cons (config : Config) (manifest : PipelineManifest)
    (d : String) (ds : List String) :
    check_staleness config manifest (d :: ds) =
      stalenessForDate config manifest d ++ check_staleness config manifest ds := by
  simp [check_staleness]

theorem countPair_check_notmem (config : Config) (manifest : PipelineManifest)
    (dates : List String) (date qid : String) (h : date ∉ dates) :
    countPair (check_staleness config manifest dates) date qid = 0 := by
  induction dates with
  | nil => rfl
  | cons d ds ih =>
    have h1 : date ≠ d := fun e => h (e ▸ List.mem_cons_self d ds)
    have h2 : date ∉ ds := fun m => h (List.mem_cons_of_mem d m)
    have ha : countPair (stalenessForDate config manifest d) date qid = 0 :=
      countPair_forDate_ne h1
    have hb := ih h2
    rw [check_staleness_cons]
    unfold countPair at ha hb ⊢
    rw [List.countP_append, ha, hb]

theorem countPair_check_mem (config : Config) (manifest : PipelineManifest)
    (dates : List String) (hd : dates.Nodup) (date qid : String) (hdate : date ∈ dates) :
    countPair (check_staleness config manifest dates) date qid =
      countPair (stalenessForDate config manifest date) date qid := by
  induction dates with
  | nil => cases hdate
  | cons d ds ih =>
    rcases List.mem_cons.mp hdate with heq | hds
    · subst heq
      have hnot : date ∉ ds := (List.nodup_cons.mp hd).1
      have hb := countPair_check_notmem config manifest ds date qid hnot
      rw [check_staleness_cons]
      unfold countPair at hb ⊢
      rw [List.countP_append, hb]
      omega
    · have h1 : date ≠ d := fun e => absurd (e ▸ hds) (List.nodup_cons.mp hd).1
      have ha : countPair (stalenessForDate config manifest d) date qid = 0 :=
        countPair_forDate_ne h1
      have hrec := ih (List.nodup_cons.mp hd).2 hds
      rw [check_staleness_cons]
      unfold countPair at ha hrec ⊢
      rw [List.countP_append, ha, hrec]
      omega

theorem mem_check_staleness_of_forDate {config : Config} {manifest : PipelineManifest}
    {dates : List String} {date : String} {r : StalenessReport}
    (hdate : date ∈ dates) (h : r ∈ stalenessForDate config manifest date) :
    r ∈ check_staleness config manifest dates := by
  unfold check_staleness
  exact List.mem_flatten.mpr ⟨_, List.mem_map.mpr ⟨date, hdate, rfl⟩, h⟩

/-- C1 (amended): for duplicate-free in-scope dates and the configured
queries (distinct ids, as Python dict keys are), `check_staleness` emits
exactly one report entry per (date, query) pair whose stored fingerprint is
absent **or the empty string** (reason `DATA_MISSING`, stored hash `None`),
exactly one entry per pair whose stored fingerprint is present, non-empty
and different from the current one (reason `QUERY_CHANGED`, carrying both
hashes), and no entry for a pair whose stored fingerprint equals the
current one. -/
theorem check_staleness_report_spec (config : Config) (manifest : PipelineManifest)
    (dates : List String) (date qid : String) (qcfg : QueryCfg)
    (hd : dates.Nodup) (hq : (config.queries.map Prod.fst).Nodup)
    (hdate : date ∈ dates) (hmem : (qid, qcfg) ∈ config.queries) :
    (storedHashAt manifest date qid = none ∨ storedHashAt manifest date qid = some "" →
      countPair (check_staleness config manifest dates) date qid = 1 ∧
      (⟨date, qid, .DATA_MISSING, currentHash qcfg, none⟩ : StalenessReport)
        ∈ check_staleness config manifest dates) ∧
    (∀ s, storedHashAt manifest date qid = some s → s ≠ "" → s ≠ currentHash qcfg →
      countPair (check_staleness config manifest dates) date qid = 1 ∧
      (⟨date, qid, .QUERY_CHANGED, currentHash qcfg, some s⟩ : StalenessReport)
        ∈ check_staleness config manifest dates) ∧
    (storedHashAt manifest date qid = some (currentHash qcfg) →
      countPair (check_staleness config manifest dates) date qid = 0) := by
  have hcheck := countPair_check_mem config manifest dates hd date qid hdate
  have hblock := countPair_filterMap_queries manifest date qid qcfg config.queries hq hmem
  refine ⟨?_, ?_, ?_⟩
  · intro hstored
    have hE : stalenessEntry date qid (currentHash qcfg) (storedHashAt manifest date qid)
        = some ⟨date, qid, .DATA_MISSING, currentHash qcfg, none⟩ := by
      rcases hstored with h | h <;> simp [stalenessEntry, h]
    refine ⟨?_, mem_check_staleness_of_forDate hdate (stalenessEntry_mem_forDate hmem hE)⟩
    rw [hcheck]
    show (config.queries.filterMap _).countP _ = 1
    rw [hblock, hE]
  · intro s hs hne1 hne2
    have hE : stalenessEntry date qid (currentHash qcfg) (storedHashAt manifest date qid)
        = some ⟨date, qid, .QUERY_CHANGED, currentHash qcfg, some s⟩ := by
      simp [stalenessEntry, hs, hne1, hne2]
    refine ⟨?_, mem_check_staleness_of_forDate hdate (stalenessEntry_mem_forDate hmem hE)⟩
    rw [hcheck]
    show (config.queries.filterMap _).countP _ = 1
    rw [hblock, hE]
  · intro hs
    have hE : stalenessEntry date qid (currentHash qcfg) (storedHashAt manifest date qid)
        = none := by
      simp [stalenessEntry, hs, currentHash_ne_empty qcfg]
    rw [hcheck]
    show (config.queries.filterMap _).countP _ = 0
    rw [hblock, hE]

/-- Witness for C1: one query whose hashing fails (current fingerprint
`"error"`), a fresh manifest (stored fingerprint absent), one date — one
`DATA_MISSING` entry. -/
theorem check_staleness_report_spec_witness :
    countPair (check_staleness ⟨none, [("q", ⟨"m", "f", "o", none⟩)]⟩ freshManifest
        ["2024-01-01"]) "2024-01-01" "q" = 1 ∧
    (⟨"2024-01-01", "q", .DATA_MISSING, "error", none⟩ : StalenessReport)
      ∈ check_staleness ⟨none, [("q", ⟨"m", "f", "o", none⟩)]⟩ freshManifest ["2024-01-01"] :=
  (check_staleness_report_spec ⟨none, [("q", ⟨"m", "f", "o", none⟩)]⟩ freshManifest
    ["2024-01-01"] "2024-01-01" "q" ⟨"m", "f", "o", none⟩ (by decide) (by decide)
    (by decide) (by decide)).1 (Or.inl (by decide))

/-- Counterexample for C1 as stated: a record whose stored `query_hash` is
the empty string is present and differs from the current fingerprint, yet
the code reports it as `DATA_MISSING` with stored hash `None`, not as
`QUERY_CHANGED` carrying both hash values; and a duplicated in-scope date
yields two entries for the same (date, query) pair, not exactly one. -/
theorem check_staleness_empty_hash_cex :
    storedHashAt ⟨some "2.0", [], none, [], [("d", [("q", ⟨"t", some "", 0, 0⟩)])], none⟩
      "d" "q" = some "" ∧
    ("" : String) ≠ "error" ∧
    check_staleness ⟨none, [("q", ⟨"m", "f", "o", none⟩)]⟩
      ⟨some "2.0", [], none, [], [("d", [("q", ⟨"t", some "", 0, 0⟩)])], none⟩ ["d"] =
      [⟨"d", "q", .DATA_MISSING, "error", none⟩] ∧
    (check_staleness ⟨none, [("q", ⟨"m", "f", "o", none⟩)]⟩
      ⟨some "2.0", [], none, [], [("d", [("q", ⟨"t", some "", 0, 0⟩)])], none⟩
      ["d", "d"]).length = 2 := by
  refine ⟨by decide, by decide, by decide, by decide⟩

/-- C5 (amended): a query whose source cannot be located or parsed gets the
sentinel fingerprint `"error"` in `compute_all_query_hashes` — which never
raises and still maps every other configured query to its own fingerprint —
and a (date, query) pair whose current fingerprint is `"error"` appears in
the staleness report **unless the stored fingerprint is itself `"error"`**,
in which case the pair is reported fresh. -/
theorem error_sentinel_spec (config : Config) (manifest : PipelineManifest)
    (dates : List String) (date qid : String) (qcfg : QueryCfg)
    (hd : dates.Nodup) (hq : (config.queries.map Prod.fst).Nodup)
    (hdate : date ∈ dates) (hmem : (qid, qcfg) ∈ config.queries)
    (hsrc : qcfg.src = none)
    (hstored : storedHashAt manifest date qid ≠ some "error") :
    (qid, "error") ∈ compute_all_query_hashes config.queries ∧
    (∀ qid2 qcfg2, (qid2, qcfg2) ∈ config.queries →
      (qid2, currentHash qcfg2) ∈ compute_all_query_hashes config.queries) ∧
    countPair (check_staleness config manifest dates) date qid = 1 := by
  have hcur : currentHash qcfg = "error" := by simp [currentHash, hsrc]
  refine ⟨?_, ?_, ?_⟩
  · exact List.mem_map.mpr ⟨(qid, qcfg), hmem, by simp [hcur]⟩
  · intro qid2 qcfg2 hm2
    exact List.mem_map.mpr ⟨(qid2, qcfg2), hm2, rfl⟩
  · have hcheck := countPair_check_mem config manifest dates hd date qid hdate
    have hblock := countPair_filterMap_queries manifest date qid qcfg config.queries hq hmem
    rw [hcheck]
    show (config.queries.filterMap _).countP _ = 1
    rw [hblock]
    cases hst : storedHashAt manifest date qid with
    | none => simp [stalenessEntry]
    | some s =>
      by_cases hse : s = ""
      · simp [stalenessEntry, hse]
      · have hsne : s ≠ currentHash qcfg := by
          rw [hcur]
          intro e
          exact hstored (by rw [hst, e])
        simp [stalenessEntry, hse, hsne]

/-- Witness for C5: broken query, stored fingerprint `"abc"` (not the
sentinel) — the pair is reported stale. -/
theorem error_sentinel_spec_witness :
    ("q", "error") ∈ compute_all_query_hashes [("q", ⟨"m", "f", "o", none⟩)] ∧
    countPair (check_staleness ⟨none, [("q", ⟨"m", "f", "o", none⟩)]⟩
      ⟨some "2.0", [], none, [], [("d", [("q", ⟨"t", some "abc", 0, 0⟩)])], none⟩
      ["d"]) "d" "q" = 1 := by
  have h := error_sentinel_spec ⟨none, [("q", ⟨"m", "f", "o", none⟩)]⟩
    ⟨some "2.0", [], none, [], [("d", [("q", ⟨"t", some "abc", 0, 0⟩)])], none⟩
    ["d"] "d" "q" ⟨"m", "f", "o", none⟩ (by decide) (by decide) (by decide) (by decide)
    (by decide) (by decide)
  exact ⟨h.1, h.2.2⟩

/-- Counterexample for C5 as stated: with the sentinel `"error"` stored and
the current fingerprint also `"error"`, the pair does not appear in the
report at all — the caller does not treat `"error"` as always stale. -/
theorem error_sentinel_cex :
    currentHash ⟨"m", "f", "o", none⟩ = "error" ∧
    storedHashAt ⟨some "2.0", [], none, [], [("d", [("q", ⟨"t", some "error", 0, 0⟩)])], none⟩
      "d" "q" = some "error" ∧
    check_staleness ⟨none, [("q", ⟨"m", "f", "o", none⟩)]⟩
      ⟨some "2.0", [], none, [], [("d", [("q", ⟨"t", some "error", 0, 0⟩)])], none⟩
      ["d"] = [] := by
  refine ⟨by decide, by decide, by decide⟩

/-! ## Work-orchestrator claims -/

/-- The successes one query contributes in `fetch_date` (none or one). -/
def fetchItemSucc (producers : String → Except String (Int × Nat))
    (query_hashes : List (String × String)) (queries_to_fetch : Option (List String))
    (now : String) (q : String × QueryCfg) : List (String × QueryRecord) :=
  let skip := match queries_to_fetch with
    | some l => !l.isEmpty && !(l.contains q.1)
    | none => false
  if skip then []
  else match query_hashes.lookup q.1 with
    | none => []
    | some qh =>
      match fetch_query now qh (producers q.1) with
      | .ok meta => [(q.1, meta)]
      | .error _ => []

/-- The failures one query contributes in `fetch_date` (none or one). -/
def fetchItemFail (producers : String → Except String (Int × Nat))
    (query_hashes : List (String × String)) (queries_to_fetch : Option (List String))
    (now : String) (q : String × QueryCfg) : List (String × String) :=
  let skip := match queries_to_fetch with
    | some l => !l.isEmpty && !(l.contains q.1)
    | none => false
  if skip then []
  else match query_hashes.lookup q.1 with
    | none => [(q.1, "KeyError: " ++ q.1)]
    | some qh =>
      match fetch_query now qh (producers q.1) with
      | .ok _ => []
      | .error e => [(q.1, e)]

theorem fetchDateStep_eq (P : String → Except String (Int × Nat))
    (H : List (String × String)) (T : Option (List String)) (N : String)
    (acc : List (String × QueryRecord) × List (String × String)) (q : String × QueryCfg) :
    fetchDateStep P H T N acc q =
      (acc.1 ++ fetchItemSucc P H T N q, acc.2 ++ fetchItemFail P H T N q) := by
  unfold fetchDateStep fetchItemSucc fetchItemFail
  cases hT : (match T with
    | some l => !l.isEmpty && !(l.contains q.1)
    | none => false) with
  | true => simp [hT]
  | false =>
    cases hL : H.lookup q.1 with
    | none => simp [hT, hL]
    | some qh =>
      cases hP : fetch_query N qh (P q.1) with
      | ok meta => simp [hT, hL, hP]
      | error e => simp [hT, hL, hP]

theorem fetch_date_go (P : String → Except String (Int × Nat))
    (H : List (String × String)) (T : Option (List String)) (N : String)
    (qs : List (String × QueryCfg))
    (acc : List (String × QueryRecord) × List (String × String)) :
    qs.foldl (fetchDateStep P H T N) acc =
      (acc.1 ++ (qs.map (fetchItemSucc P H T N)).flatten,
       acc.2 ++ (qs.map (fetchItemFail P H T N)).flatten) := by
  induction qs generalizing acc with
  | nil => cases acc; simp
  | cons q rest ih =>
    rw [List.foldl_cons, fetchDateStep_eq, ih]
    simp

theorem fetch_date_eq (P : String → Except String (Int × Nat))
    (H : List (String × String)) (T : Option (List String)) (N : String)
    (qs : List (String × QueryCfg)) :
    fetch_date qs P H T N =
      ((qs.map (fetchItemSucc P H T N)).flatten,
       (qs.map (fetchItemFail P H T N)).flatten) := by
  unfold fetch_date
  rw [fetch_date_go]
  simp

theorem fetchItem_length_one (P : String → Except String (Int × Nat))
    (H : List (String × String)) (N : String) (q : String × QueryCfg)
    (hq : (H.lookup q.1).isSome = true) :
    (fetchItemSucc P H none N q).length + (fetchItemFail P H none N q).length = 1 := by
  unfold fetchItemSucc fetchItemFail
  cases hL : H.lookup q.1 with
  | none => rw [hL] at hq; simp at hq
  | some qh => cases hP : fetch_query N qh (P q.1) <;> simp [hL, hP]

theorem mem_fetchItemSucc {P : String → Except String (Int × Nat)}
    {H : List (String × String)} {N : String} {q : String × QueryCfg}
    {qid : String} {rec : QueryRecord}
    (h : (qid, rec) ∈ fetchItemSucc P H none N q) :
    qid = q.1 ∧ ∃ v, P q.1 = .ok v := by
  unfold fetchItemSucc at h
  cases hL : H.lookup q.1 with
  | none => simp [hL] at h
  | some qh =>
    cases hP : P q.1 with
    | error e => simp [hL, fetch_query, hP] at h
    | ok v =>
      simp [hL, fetch_query, hP] at h
      exact ⟨h.1, v, rfl⟩

theorem fetchItemSucc_shape (P : String → Except String (Int × Nat))
    (H : List (String × String)) (T : Option (List String)) (N : String)
    (q : String × QueryCfg) :
    fetchItemSucc P H T N q = [] ∨ ∃ rec, fetchItemSucc P H T N q = [(q.1, rec)] := by
  unfold fetchItemSucc
  generalize (match T with
    | some l => !l.isEmpty && !(l.contains q.1)
    | none => false) = sk
  cases sk with
  | true => exact Or.inl (by simp)
  | false =>
    cases hL : H.lookup q.1 with
    | none => exact Or.inl (by simp [hL])
    | some qh =>
      cases hP : fetch_query N qh (P q.1) with
      | ok meta => exact Or.inr ⟨meta, by simp [hL, hP]⟩
      | error e => exact Or.inl (by simp [hL, hP])

theorem succ_keys_sublist (P : String → Except String (Int × Nat))
    (H : List (String × String)) (T : Option (List String)) (N : String)
    (qs : List (String × QueryCfg)) :
    (((qs.map (fetchItemSucc P H T N)).flatten).map Prod.fst).Sublist (qs.map Prod.fst) := by
  induction qs with
  | nil => simp
  | cons q rest ih =>
    simp only [List.map_cons, List.flatten_cons, List.map_append]
    rcases fetchItemSucc_shape P H T N q with h | ⟨rec, h⟩
    · rw [h]
      simpa using ih.cons q.1
    · rw [h]
      simpa using ih.cons₂ q.1

theorem dictInsert_not_mem {α : Type} {d : List (String × α)} {k : String} (v : α)
    (h : k ∉ d.map Prod.fst) : dictInsert d k v = d ++ [(k, v)] := by
  unfold dictInsert
  rw [if_neg]
  intro hany
  rcases List.any_eq_true.mp hany with ⟨p, hp, he⟩
  exact h (List.mem_map.mpr ⟨p, hp, beq_iff_eq.mp he⟩)

theorem dictUpdate_append {α : Type} (d kvs : List (String × α))
    (hn : (kvs.map Prod.fst).Nodup)
    (hdisj : ∀ k ∈ kvs.map Prod.fst, k ∉ d.map Prod.fst) :
    dictUpdate d kvs = d ++ kvs := by
  induction kvs generalizing d with
  | nil => simp [dictUpdate]
  | cons kv rest ih =>
    obtain ⟨k, v⟩ := kv
    have hk : k ∉ d.map Prod.fst := hdisj k (by simp)
    have h1 : dictInsert d k v = d ++ [(k, v)] := dictInsert_not_mem v hk
    show dictUpdate d ((k, v) :: rest) = d ++ (k, v) :: rest
    unfold dictUpdate
    rw [List.foldl_cons]
    have h2 : rest.foldl (fun acc p => dictInsert acc p.1 p.2) (dictInsert d k v) =
        dictUpdate (dictInsert d k v) rest := rfl
    rw [h2, h1]
    have hcons : (k :: rest.map Prod.fst).Nodup := by simpa using hn
    have hn2 := (List.nodup_cons.mp hcons).2
    have hk2 := (List.nodup_cons.mp hcons).1
    rw [ih (d ++ [(k, v)]) hn2 ?_]
    · simp
    · intro k2 hk2m
      simp only [List.map_append, List.mem_append]
      rintro (hkd | hkk)
      · exact absurd hkd (hdisj k2 (by simp [hk2m]))
      · simp at hkk
        exact hk2 (hkk ▸ hk2m)

theorem fetch_lengths (P : String → Except String (Int × Nat))
    (H : List (String × String)) (N : String) :
    ∀ qs : List (String × QueryCfg),
      (∀ qid ∈ qs.map Prod.fst, (H.lookup qid).isSome = true) →
      ((qs.map (fetchItemSucc P H none N)).flatten).length +
        ((qs.map (fetchItemFail P H none N)).flatten).length = qs.length := by
  intro qs
  induction qs with
  | nil => intro _; rfl
  | cons q rest ih =>
    intro hh
    have h1 := fetchItem_length_one P H N q (hh q.1 (by simp))
    have h2 := ih (fun qid hm => hh qid (by simp [hm]))
    simp only [List.map_cons, List.flatten_cons, List.length_append, List.length_cons]
    omega

/-- C3: with distinct query ids and a hash entry for every configured query
(what `compute_all_query_hashes` guarantees), a raising producer never
aborts its siblings — every work item ends up as exactly one success or one
failure, a raising item is reported with its error detail — and updating a
fresh manifest records per-date entries for exactly the successes. -/
theorem fetch_failures_isolated
    (queries : List (String × QueryCfg)) (producers : String → Except String (Int × Nat))
    (query_hashes : List (String × String)) (now date : String) (dirs : List String)
    (hq : (queries.map Prod.fst).Nodup)
    (hh : ∀ qid ∈ queries.map Prod.fst, (query_hashes.lookup qid).isSome = true) :
    ((fetch_date queries producers query_hashes none now).1.length +
      (fetch_date queries producers query_hashes none now).2.length = queries.length) ∧
    (∀ qid qcfg, (qid, qcfg) ∈ queries →
      ((∃ v, producers qid = .ok v) ↔
        ∃ rec, (qid, rec) ∈ (fetch_date queries producers query_hashes none now).1)) ∧
    (∀ qid qcfg e, (qid, qcfg) ∈ queries → producers qid = .error e →
      (qid, e) ∈ (fetch_date queries producers query_hashes none now).2) ∧
    ((update_manifest dirs now freshManifest
        [(date, (fetch_date queries producers query_hashes none now).1)]
        query_hashes none).date_queries =
      [(date, (fetch_date queries producers query_hashes none now).1)]) := by
  rw [fetch_date_eq]
  refine ⟨fetch_lengths producers query_hashes now queries hh, ?_, ?_, ?_⟩
  · intro qid qcfg hmem
    constructor
    · rintro ⟨v, hv⟩
      have hsk : (query_hashes.lookup qid).isSome = true :=
        hh qid (List.mem_map.mpr ⟨(qid, qcfg), hmem, rfl⟩)
      rcases Option.isSome_iff_exists.mp hsk with ⟨qh, hqh⟩
      refine ⟨⟨now, some qh, v.1, v.2⟩, ?_⟩
      apply List.mem_flatten.mpr
      refine ⟨fetchItemSucc producers query_hashes none now (qid, qcfg),
        List.mem_map.mpr ⟨(qid, qcfg), hmem, rfl⟩, ?_⟩
      simp [fetchItemSucc, hqh, fetch_query, hv]
    · rintro ⟨rec, hrec⟩
      rcases List.mem_flatten.mp hrec with ⟨blk, hblk, hmem2⟩
      rcases List.mem_map.mp hblk with ⟨q2, _, rfl⟩
      rcases mem_fetchItemSucc hmem2 with ⟨he, v, hv⟩
      exact ⟨v, by rw [he]; exact hv⟩
  · intro qid qcfg e hmem herr
    have hsk : (query_hashes.lookup qid).isSome = true :=
      hh qid (List.mem_map.mpr ⟨(qid, qcfg), hmem, rfl⟩)
    rcases Option.isSome_iff_exists.mp hsk with ⟨qh, hqh⟩
    apply List.mem_flatten.mpr
    refine ⟨fetchItemFail producers query_hashes none now (qid, qcfg),
      List.mem_map.mpr ⟨(qid, qcfg), hmem, rfl⟩, ?_⟩
    simp [fetchItemFail, hqh, fetch_query, herr]
  · have hnod : (((queries.map (fetchItemSucc producers query_hashes none now)).flatten).map
        Prod.fst).Nodup :=
      List.Nodup.sublist (succ_keys_sublist producers query_hashes none now queries) hq
    have hupd : dictUpdate []
        ((queries.map (fetchItemSucc producers query_hashes none now)).flatten) =
        (queries.map (fetchItemSucc producers query_hashes none now)).flatten := by
      simpa using dictUpdate_append [] _ hnod (by simp)
    simp [update_manifest, mergeDateStep, freshManifest, hupd]

/-- Witness for C3: three work items where item 2 raises — the run
completes with 2 successes and 1 failure, the failure carries the error
detail, and the fresh manifest ends up with exactly the successes. -/
theorem fetch_failures_isolated_witness :
    ((fetch_date [("q1", ⟨"m", "f1", "o1", some "s1"⟩), ("q2", ⟨"m", "f2", "o2", some "s2"⟩),
        ("q3", ⟨"m", "f3", "o3", some "s3"⟩)]
        (fun qid => if qid == "q2" then .error "boom" else .ok (5, 100))
        [("q1", "h1"), ("q2", "h2"), ("q3", "h3")] none "t").1.length +
      (fetch_date [("q1", ⟨"m", "f1", "o1", some "s1"⟩), ("q2", ⟨"m", "f2", "o2", some "s2"⟩),
        ("q3", ⟨"m", "f3", "o3", some "s3"⟩)]
        (fun qid => if qid == "q2" then .error "boom" else .ok (5, 100))
        [("q1", "h1"), ("q2", "h2"), ("q3", "h3")] none "t").2.length = 3) ∧
    ("q2", "boom") ∈ (fetch_date [("q1", ⟨"m", "f1", "o1", some "s1"⟩),
        ("q2", ⟨"m", "f2", "o2", some "s2"⟩), ("q3", ⟨"m", "f3", "o3", some "s3"⟩)]
        (fun qid => if qid == "q2" then .error "boom" else .ok (5, 100))
        [("q1", "h1"), ("q2", "h2"), ("q3", "h3")] none "t").2 ∧
    ((update_manifest ["2024-01-01"] "t" freshManifest
        [("2024-01-01", (fetch_date [("q1", ⟨"m", "f1", "o1", some "s1"⟩),
          ("q2", ⟨"m", "f2", "o2", some "s2"⟩), ("q3", ⟨"m", "f3", "o3", some "s3"⟩)]
          (fun qid => if qid == "q2" then .error "boom" else .ok (5, 100))
          [("q1", "h1"), ("q2", "h2"), ("q3", "h3")] none "t").1)]
        [("q1", "h1"), ("q2", "h2"), ("q3", "h3")] none).date_queries =
      [("2024-01-01", (fetch_date [("q1", ⟨"m", "f1", "o1", some "s1"⟩),
        ("q2", ⟨"m", "f2", "o2", some "s2"⟩), ("q3", ⟨"m", "f3", "o3", some "s3"⟩)]
        (fun qid => if qid == "q2" then .error "boom" else .ok (5, 100))
        [("q1", "h1"), ("q2", "h2"), ("q3", "h3")] none "t").1)]) := by
  have h := fetch_failures_isolated
    [("q1", ⟨"m", "f1", "o1", some "s1"⟩), ("q2", ⟨"m", "f2", "o2", some "s2"⟩),
      ("q3", ⟨"m", "f3", "o3", some "s3"⟩)]
    (fun qid => if qid == "q2" then .error "boom" else .ok (5, 100))
    [("q1", "h1"), ("q2", "h2"), ("q3", "h3")] "t" "2024-01-01" ["2024-01-01"]
    (by decide) (by decide)
  exact ⟨h.1, h.2.2.1 "q2" ⟨"m", "f2", "o2", some "s2"⟩ "boom" (by decide) rfl, h.2.2.2⟩

/-! ## Manifest-invariant claims -/

theorem charsLe_refl (a : List Char) : charsLe a a = true := by
  induction a with
  | nil => rfl
  | cons x xs ih => simp [charsLe, ih]

theorem strLe_refl (a : String) : strLe a a = true := charsLe_refl a.toList

theorem sorted_desc_head_max {l : List String} (h : List.Sorted descOrder l) (x : String)
    (hx : x ∈ l) : ∃ mx, l.head? = some mx ∧ mx ∈ l ∧ strLe x mx = true := by
  cases l with
  | nil => cases hx
  | cons a t =>
    refine ⟨a, rfl, List.mem_cons_self a t, ?_⟩
    rcases List.mem_cons.mp hx with h1 | h1
    · rw [h1]; exact strLe_refl a
    · exact (List.sorted_cons.mp h).1 x h1

theorem lookup_mem {α : Type} {d : List (String × α)} {k : String} {v : α}
    (h : d.lookup k = some v) : (k, v) ∈ d := by
  induction d with
  | nil => cases h
  | cons p rest ih =>
    rw [List.lookup] at h
    cases hbeq : k == p.1 with
    | true =>
      rw [hbeq] at h
      cases h
      have hk : k = p.1 := beq_iff_eq.mp hbeq
      rw [hk, Prod.mk.eta]
      exact List.mem_cons_self p rest
    | false =>
      rw [hbeq] at h
      exact List.mem_cons_of_mem p (ih h)

theorem lookup_any_false {α : Type} {d : List (String × α)} {k : String}
    (h : d.any (fun p => p.1 == k) = false) : d.lookup k = none := by
  induction d with
  | nil => rfl
  | cons p rest ih =>
    rw [List.any_cons] at h
    rcases Bool.or_eq_false_iff.mp h with ⟨h1, h2⟩
    rw [List.lookup]
    have : (k == p.1) = false := by
      rcases beq_eq_false_iff_ne.mp h1 with hne
      exact beq_eq_false_iff_ne.mpr (fun e => hne e.symm)
    rw [this]
    exact ih h2

theorem lookup_append_some {α : Type} {d1 : List (String × α)} {k : String} {v : α}
    (h : d1.lookup k = some v) (d2 : List (String × α)) :
    (d1 ++ d2).lookup k = some v := by
  induction d1 with
  | nil => cases h
  | cons p rest ih =>
    rw [List.cons_append, List.lookup]
    rw [List.lookup] at h
    cases hbeq : k == p.1 with
    | true => rw [hbeq] at h; rw [h]
    | false => rw [hbeq] at h; exact ih h

theorem lookup_append_none {α : Type} {d1 : List (String × α)} {k : String}
    (h : d1.lookup k = none) (d2 : List (String × α)) :
    (d1 ++ d2).lookup k = d2.lookup k := by
  induction d1 with
  | nil => rfl
  | cons p rest ih =>
    rw [List.cons_append, List.lookup]
    rw [List.lookup] at h
    cases hbeq : k == p.1 with
    | true => rw [hbeq] at h; cases h
    | false => rw [hbeq] at h; exact ih h

theorem lookup_map_set_ne {α : Type} (dq : List (String × α)) (k d : String)
    (f : α → α) (hne : d ≠ k) :
    (dq.map (fun q => if q.1 == k then (q.1, f q.2) else q)).lookup d = dq.lookup d := by
  induction dq with
  | nil => rfl
  | cons p rest ih =>
    rw [List.map_cons]
    by_cases hp : p.1 == k
    · rw [if_pos hp, List.lookup, List.lookup]
      cases hbeq : d == p.1 with
      | true =>
        exact absurd (beq_iff_eq.mp hp ▸ beq_iff_eq.mp hbeq) hne
      | false => exact ih
    · rw [if_neg hp, List.lookup, List.lookup]
      cases hbeq : d == p.1 with
      | true => rfl
      | false => exact ih

theorem lookup_map_set_eq {α : Type} (dq : List (String × α)) (k : String) (f : α → α) :
    (dq.map (fun q => if q.1 == k then (q.1, f q.2) else q)).lookup k =
      (dq.lookup k).map f := by
  induction dq with
  | nil => rfl
  | cons p rest ih =>
    rw [List.map_cons]
    by_cases hp : p.1 == k
    · rw [if_pos hp, List.lookup, List.lookup]
      have h1 : (k == p.1) = true := beq_iff_eq.mpr (beq_iff_eq.mp hp).symm
      rw [h1]
      rfl
    · rw [if_neg hp, List.lookup, List.lookup]
      cases hbeq : k == p.1 with
      | true =>
        exact absurd (beq_iff_eq.mpr (beq_iff_eq.mp hbeq).symm) (by simp [hp])
      | false => exact ih

theorem dictUpdate_ne_nil {α : Type} {l0 kvs : List (String × α)}
    (h : dictUpdate l0 kvs ≠ []) : l0 ≠ [] ∨ kvs ≠ [] := by
  by_cases h0 : l0 = []
  · by_cases h1 : kvs = []
    · subst h0; subst h1; simp [dictUpdate] at h
    · exact Or.inr h1
  · exact Or.inl h0

theorem lookup_mergeDateStep {dq : List (String × List (String × QueryRecord))}
    {p : String × List (String × QueryRecord)} {d : String}
    {l : List (String × QueryRecord)}
    (h : (mergeDateStep dq p).lookup d = some l) (hne : l ≠ []) :
    (∃ l0, dq.lookup d = some l0 ∧ l0 ≠ []) ∨ (d = p.1 ∧ p.2 ≠ []) := by
  unfold mergeDateStep at h
  replace h : (((if (dq.any fun q => q.1 == p.1) = true then dq else dq ++ [(p.1, [])]).map
      (fun q => if (q.1 == p.1) = true then (q.1, dictUpdate q.2 p.2) else q)).lookup d)
      = some l := h
  by_cases hd : d = p.1
  · subst hd
    rw [lookup_map_set_eq _ p.1 (fun v => dictUpdate v p.2)] at h
    cases h2 : (if dq.any (fun q => q.1 == p.1) then dq else dq ++ [(p.1, [])]).lookup p.1 with
    | none => rw [h2] at h; cases h
    | some l0 =>
      rw [h2] at h
      have hl : dictUpdate l0 p.2 = l := Option.some.inj h
      have hnil : dictUpdate l0 p.2 ≠ [] := by rw [hl]; exact hne
      rcases dictUpdate_ne_nil hnil with h3 | h3
      · by_cases hany : dq.any (fun q => q.1 == p.1) = true
        · rw [if_pos hany] at h2
          exact Or.inl ⟨l0, h2, h3⟩
        · rw [if_neg hany] at h2
          have hnone : dq.lookup p.1 = none :=
            lookup_any_false (Bool.not_eq_true _ ▸ hany)
          rw [lookup_append_none hnone] at h2
          rw [List.lookup] at h2
          rw [beq_self_eq_true p.1] at h2
          cases h2
          exact absurd rfl h3
      · exact Or.inr ⟨rfl, h3⟩
  · rw [lookup_map_set_ne _ p.1 d (fun v => dictUpdate v p.2) hd] at h
    by_cases hany : dq.any (fun q => q.1 == p.1) = true
    · rw [if_pos hany] at h
      exact Or.inl ⟨l, h, hne⟩
    · rw [if_neg hany] at h
      cases h0 : dq.lookup d with
      | some l1 =>
        rw [lookup_append_some h0] at h
        have he : l1 = l := Option.some.inj h
        refine Or.inl ⟨l1, rfl, ?_⟩
        rw [he]
        exact hne
      | none =>
        rw [lookup_append_none h0] at h
        rw [List.lookup] at h
        have hb : (d == p.1) = false := beq_eq_false_iff_ne.mpr hd
        rw [hb] at h
        cases h

theorem lookup_mergeFold {dq0 : List (String × List (String × QueryRecord))}
    {drs : List (String × List (String × QueryRecord))} {d : String}
    {l : List (String × QueryRecord)}
    (h : (drs.foldl mergeDateStep dq0).lookup d = some l) (hne : l ≠ []) :
    (∃ l0, dq0.lookup d = some l0 ∧ l0 ≠ []) ∨ (∃ lr, (d, lr) ∈ drs ∧ lr ≠ []) := by
  induction drs generalizing dq0 with
  | nil => exact Or.inl ⟨l, h, hne⟩
  | cons p rest ih =>
    rw [List.foldl_cons] at h
    rcases ih h with h1 | h1
    · rcases h1 with ⟨l0, hl0, hl0ne⟩
      rcases lookup_mergeDateStep hl0 hl0ne with h2 | h2
      · exact Or.inl h2
      · refine Or.inr ⟨p.2, ?_, h2.2⟩
        rw [h2.1, Prod.mk.eta]
        exact List.mem_cons_self p rest
    · rcases h1 with ⟨lr, hmem, hlr⟩
      exact Or.inr ⟨lr, List.mem_cons_of_mem p hmem, hlr⟩

theorem lookup_dictPop {α : Type} {dq : List (String × α)} {k d : String} {v : α}
    (h : (dictPop dq k).lookup d = some v) : dq.lookup d = some v ∧ d ≠ k := by
  induction dq with
  | nil => cases h
  | cons p rest ih =>
    unfold dictPop at h ih
    rw [List.filter] at h
    by_cases hp : p.1 = k
    · have : (decide (p.1 ≠ k)) = false := by simp [hp]
      rw [this] at h
      rcases ih h with ⟨h1, h2⟩
      rw [List.lookup]
      have : (d == p.1) = false := beq_eq_false_iff_ne.mpr (by rw [hp]; exact h2)
      rw [this]
      exact ⟨h1, h2⟩
    · have : (decide (p.1 ≠ k)) = true := by simp [hp]
      rw [this] at h
      rw [List.lookup] at h
      cases hbeq : d == p.1 with
      | true =>
        rw [hbeq] at h
        cases h
        refine ⟨?_, ?_⟩
        · rw [List.lookup, hbeq]
        · rw [beq_iff_eq.mp hbeq]
          exact hp
      | false =>
        rw [hbeq] at h
        rcases ih h with ⟨h1, h2⟩
        rw [List.lookup, hbeq]
        exact ⟨h1, h2⟩

theorem lookup_foldl_dictPop {α : Type} (removeL : List String)
    (dq : List (String × α)) (d : String) {v : α}
    (h : (removeL.foldl (fun acc x => dictPop acc x) dq).lookup d = some v) :
    dq.lookup d = some v ∧ d ∉ removeL := by
  induction removeL generalizing dq with
  | nil => exact ⟨h, by simp⟩
  | cons r rest ih =>
    rw [List.foldl_cons] at h
    rcases ih (dictPop dq r) h with ⟨h1, h2⟩
    rcases lookup_dictPop h1 with ⟨h3, h4⟩
    refine ⟨h3, ?_⟩
    intro hmem
    rcases List.mem_cons.mp hmem with he | he
    · exact h4 he
    · exact h2 he

theorem update_manifest_dates_eq (D : List String) (now : String) (m0 : PipelineManifest)
    (drs : List (String × List (String × QueryRecord)))
    (qh : List (String × String)) (cutoff : Option String) :
    (update_manifest D now m0 drs qh cutoff).dates =
      (match cutoff with
        | some c => (sortDesc ((D.filter goodDateDir).dedup)).filter (fun d => !(strLt d c))
        | none => sortDesc ((D.filter goodDateDir).dedup)) := by
  unfold update_manifest
  by_cases hsv : m0.schema_version.isNone <;> cases cutoff <;> simp [hsv]

theorem update_manifest_latest_eq (D : List String) (now : String) (m0 : PipelineManifest)
    (drs : List (String × List (String × QueryRecord)))
    (qh : List (String × String)) (cutoff : Option String) :
    (update_manifest D now m0 drs qh cutoff).latest =
      (update_manifest D now m0 drs qh cutoff).dates.head? := by
  unfold update_manifest
  by_cases hsv : m0.schema_version.isNone <;> cases cutoff <;> simp [hsv]

theorem update_manifest_dq_eq (D : List String) (now : String) (m0 : PipelineManifest)
    (drs : List (String × List (String × QueryRecord)))
    (qh : List (String × String)) (cutoff : Option String) :
    (update_manifest D now m0 drs qh cutoff).date_queries =
      (match cutoff with
        | some c => ((sortDesc ((D.filter goodDateDir).dedup)).filter
            (fun d => strLt d c)).foldl (fun acc d => dictPop acc d)
            (drs.foldl mergeDateStep
              (if m0.schema_version.isNone then [] else m0.date_queries))
        | none => drs.foldl mergeDateStep
            (if m0.schema_version.isNone then [] else m0.date_queries)) := by
  unfold update_manifest
  by_cases hsv : m0.schema_version.isNone <;> cases cutoff <;> simp [hsv]

/-- C4 (amended): after every `update_manifest` write — unconditionally —
`dates` is sorted newest-first without duplicates, and `latest` equals the
maximum of `dates` when `dates` is non-empty and is null otherwise; and
every date holding at least one record is a member of `dates` provided
**its** directory name is well-formed (10 characters, leading digit) and
present in the output-directory listing. Without that per-date proviso the
membership invariant can fail: `dates` is rescanned from the directory
listing while `date_queries` keeps records of dates whose directories are
gone. -/
theorem update_manifest_invariants (dirListing : List String) (now : String)
    (manifest0 : PipelineManifest)
    (date_results : List (String × List (String × QueryRecord)))
    (query_hashes : List (String × String)) (cutoff : Option String)
    (m : PipelineManifest)
    (hm : m = update_manifest dirListing now manifest0 date_results query_hashes cutoff) :
    List.Sorted descOrder m.dates ∧
    m.dates.Nodup ∧
    (m.dates = [] → m.latest = none) ∧
    (∀ x ∈ m.dates, ∃ mx, m.latest = some mx ∧ mx ∈ m.dates ∧ strLe x mx = true) ∧
    (∀ d l, m.date_queries.lookup d = some l → l ≠ [] →
      goodDateDir d = true → d ∈ dirListing → d ∈ m.dates) := by
  subst hm
  have hLat := update_manifest_latest_eq dirListing now manifest0 date_results
    query_hashes cutoff
  have hDat := update_manifest_dates_eq dirListing now manifest0 date_results
    query_hashes cutoff
  have hDQ := update_manifest_dq_eq dirListing now manifest0 date_results
    query_hashes cutoff
  have hsorted : List.Sorted descOrder
      (update_manifest dirListing now manifest0 date_results query_hashes cutoff).dates := by
    rw [hDat]
    cases cutoff with
    | none => exact sortDesc_sorted _
    | some c => exact List.Pairwise.filter _ (sortDesc_sorted _)
  have hnodup :
      (update_manifest dirListing now manifest0 date_results query_hashes cutoff).dates.Nodup := by
    rw [hDat]
    have hnd : (sortDesc ((dirListing.filter goodDateDir).dedup)).Nodup :=
      ((sortDesc_perm _).nodup_iff).mpr (List.nodup_dedup _)
    cases cutoff with
    | none => exact hnd
    | some c => exact hnd.filter _
  refine ⟨hsorted, hnodup, ?_, ?_, ?_⟩
  · intro h0
    rw [hLat, h0]
    rfl
  · intro x hx
    rcases sorted_desc_head_max hsorted x hx with ⟨mx, hhead, hmxmem, hle⟩
    exact ⟨mx, by rw [hLat]; exact hhead, hmxmem, hle⟩
  · intro d l hlk _ hgood hmemL
    -- the rescan picks the date up from its well-formed listed directory
    have hd0 : d ∈ sortDesc ((dirListing.filter goodDateDir).dedup) :=
      mem_sortDesc.mpr (List.mem_dedup.mpr (List.mem_filter.mpr ⟨hmemL, hgood⟩))
    cases cutoff with
    | none =>
      rw [hDat]
      exact hd0
    | some c =>
      rw [hDQ] at hlk
      rw [hDat]
      -- the surviving record shows the date was not popped, hence not pruned
      obtain ⟨_, hnotrem⟩ := lookup_foldl_dictPop _ _ _ hlk
      have hlt : strLt d c = false := by
        cases hlt2 : strLt d c with
        | false => rfl
        | true => exact absurd (List.mem_filter.mpr ⟨hd0, hlt2⟩) hnotrem
      exact List.mem_filter.mpr ⟨hd0, by rw [hlt]; rfl⟩

/-- Witness for C4 at a concrete run: one fetched date with one record, its
directory present, pruning enabled with a cutoff that keeps it. -/
theorem update_manifest_invariants_witness :
    ((update_manifest ["2024-01-02"] "t" freshManifest
        [("2024-01-02", [("q", ⟨"t", some "abc", 1, 10⟩)])] [] (some "2024-01-01")).dates =
      ["2024-01-02"]) ∧
    ((update_manifest ["2024-01-02"] "t" freshManifest
        [("2024-01-02", [("q", ⟨"t", some "abc", 1, 10⟩)])] [] (some "2024-01-01")).latest =
      some "2024-01-02") ∧
    "2024-01-02" ∈ (update_manifest ["2024-01-02"] "t" freshManifest
        [("2024-01-02", [("q", ⟨"t", some "abc", 1, 10⟩)])] [] (some "2024-01-01")).dates := by
  have h := update_manifest_invariants ["2024-01-02"] "t" freshManifest
    [("2024-01-02", [("q", ⟨"t", some "abc", 1, 10⟩)])] [] (some "2024-01-01") _ rfl
  refine ⟨by decide, ?_, ?_⟩
  · have hmem : "2024-01-02" ∈ (update_manifest ["2024-01-02"] "t" freshManifest
        [("2024-01-02", [("q", ⟨"t", some "abc", 1, 10⟩)])] [] (some "2024-01-01")).dates := by
      decide
    rcases h.2.2.2.1 "2024-01-02" hmem with ⟨mx, hlat, hmx, _⟩
    have : mx = "2024-01-02" := by
      have hd : (update_manifest ["2024-01-02"] "t" freshManifest
          [("2024-01-02", [("q", ⟨"t", some "abc", 1, 10⟩)])] [] (some "2024-01-01")).dates =
          ["2024-01-02"] := by decide
      rw [hd] at hmx
      simpa using hmx
    rw [this] at hlat
    exact hlat
  · exact h.2.2.2.2 "2024-01-02" [("q", ⟨"t", some "abc", 1, 10⟩)] (by decide) (by decide)
      (by decide) (by decide)

/-- Counterexample for C4 as stated: a manifest holding a record for a date
whose directory no longer exists — after the write, the date still has a
record but is not in `dates` (which is empty, `latest` null), violating the
second invariant. -/
theorem update_manifest_invariants_cex :
    ((update_manifest [] "t"
        ⟨some "2.0", ["2024-01-01"], some "2024-01-01", [],
          [("2024-01-01", [("q", ⟨"t", some "abc", 1, 1⟩)])], none⟩
        [] [] none).date_queries.lookup "2024-01-01" =
      some [("q", ⟨"t", some "abc", 1, 1⟩)]) ∧
    ((update_manifest [] "t"
        ⟨some "2.0", ["2024-01-01"], some "2024-01-01", [],
          [("2024-01-01", [("q", ⟨"t", some "abc", 1, 1⟩)])], none⟩
        [] [] none).dates = []) ∧
    "2024-01-01" ∉ (update_manifest [] "t"
        ⟨some "2.0", ["2024-01-01"], some "2024-01-01", [],
          [("2024-01-01", [("q", ⟨"t", some "abc", 1, 1⟩)])], none⟩
        [] [] none).dates := by
  refine ⟨by decide, by decide, by decide⟩

/-! ## Publisher claims -/

theorem blob_exists_found {s3 : BlobStore} {key : String}
    (h : blob_exists s3 key = .ok true) : s3.head key = .found := by
  unfold blob_exists at h
  cases hh : s3.head key with
  | found => rfl
  | notFound => rw [hh] at h; cases h
  | err e => rw [hh] at h; cases h

theorem mem_dictInsert {α : Type} {d : List (String × α)} {k : String} {v : α}
    {p : String × α} (h : p ∈ dictInsert d k v) : p ∈ d ∨ p = (k, v) := by
  unfold dictInsert at h
  split at h
  · rcases List.mem_map.mp h with ⟨q, hq, he⟩
    by_cases hqk : q.1 == k
    · rw [if_pos hqk] at he
      exact Or.inr he.symm
    · rw [if_neg hqk] at he
      exact Or.inl (he ▸ hq)
  · rcases List.mem_append.mp h with h1 | h1
    · exact Or.inl h1
    · exact Or.inr (List.mem_singleton.mp h1)

theorem foldl_scanStep_error (s3 : BlobStore) (files : List SiteFile) (e : String) :
    files.foldl (scanStep s3) (.error e) = .error e := by
  induction files with
  | nil => rfl
  | cons f rest ih => rw [List.foldl_cons]; exact ih

theorem scanStep_err {s3 : BlobStore}
    {acc : List (String × BlobEntry) × List (SiteFile × String) × List String}
    {f : SiteFile} {e : String} (hh : s3.head (blob_key f) = .err e) :
    scanStep s3 (.ok acc) f = .error e := by
  obtain ⟨man, toUp, exist⟩ := acc
  have hh2 : s3.head ("blobs/" ++ hash_file f.bytes ++ get_extension f.suffix) =
      HeadResult.err e := hh
  simp [scanStep, blob_exists, hh2]

theorem scanStep_found {s3 : BlobStore}
    {acc : List (String × BlobEntry) × List (SiteFile × String) × List String}
    {f : SiteFile} (hh : s3.head (blob_key f) = .found) :
    scanStep s3 (.ok acc) f = .ok
      (dictInsert acc.1 f.path ⟨hash_file f.bytes, blob_key f, f.bytes.length⟩,
       acc.2.1, acc.2.2 ++ [blob_key f]) := by
  obtain ⟨man, toUp, exist⟩ := acc
  have hh2 : s3.head ("blobs/" ++ hash_file f.bytes ++ get_extension f.suffix) =
      HeadResult.found := hh
  simp [scanStep, blob_exists, hh2, blob_key]

theorem scanStep_notFound {s3 : BlobStore}
    {acc : List (String × BlobEntry) × List (SiteFile × String) × List String}
    {f : SiteFile} (hh : s3.head (blob_key f) = .notFound) :
    scanStep s3 (.ok acc) f = .ok
      (dictInsert acc.1 f.path ⟨hash_file f.bytes, blob_key f, f.bytes.length⟩,
       acc.2.1 ++ [(f, blob_key f)], acc.2.2) := by
  obtain ⟨man, toUp, exist⟩ := acc
  have hh2 : s3.head ("blobs/" ++ hash_file f.bytes ++ get_extension f.suffix) =
      HeadResult.notFound := hh
  simp [scanStep, blob_exists, hh2, blob_key]

theorem scanPhase_error_of_err (s3 : BlobStore) (files : List SiteFile) :
    ∀ acc : List (String × BlobEntry) × List (SiteFile × String) × List String,
      (∃ f ∈ files, (s3.head (blob_key f)).isErr = true) →
      ∃ e, files.foldl (scanStep s3) (.ok acc) = .error e := by
  induction files with
  | nil => rintro acc ⟨f, hf, -⟩; cases hf
  | cons g rest ih =>
    rintro acc ⟨f, hf, herr⟩
    rw [List.foldl_cons]
    cases hh : s3.head (blob_key g) with
    | err e =>
      rw [scanStep_err hh, foldl_scanStep_error]
      exact ⟨e, rfl⟩
    | found =>
      have hf2 : f ∈ rest := by
        rcases List.mem_cons.mp hf with he | he
        · rw [he, hh] at herr
          cases herr
        · exact he
      rw [scanStep_found hh]
      exact ih _ ⟨f, hf2, herr⟩
    | notFound =>
      have hf2 : f ∈ rest := by
        rcases List.mem_cons.mp hf with he | he
        · rw [he, hh] at herr
          cases herr
        · exact he
      rw [scanStep_notFound hh]
      exact ih _ ⟨f, hf2, herr⟩

theorem scan_fold_inv (s3 : BlobStore) (files : List SiteFile) :
    ∀ (acc : List (String × BlobEntry) × List (SiteFile × String) × List String)
      (man : List (String × BlobEntry)) (toUp : List (SiteFile × String))
      (exist : List String),
      files.foldl (scanStep s3) (.ok acc) = .ok (man, toUp, exist) →
      acc.2.1 ⊆ toUp ∧
      ((∀ p : String × BlobEntry, p ∈ acc.1 →
          s3.head p.2.blob = .found ∨ ∃ f, (f, p.2.blob) ∈ acc.2.1) →
        ∀ p : String × BlobEntry, p ∈ man →
          s3.head p.2.blob = .found ∨ ∃ f, (f, p.2.blob) ∈ toUp) := by
  induction files with
  | nil =>
    intro acc man toUp exist h
    obtain ⟨m0, t0, e0⟩ := acc
    cases h
    refine ⟨fun x hx => hx, fun hinv p hp => ?_⟩
    rcases hinv p hp with h1 | ⟨f, h1⟩
    · exact Or.inl h1
    · exact Or.inr ⟨f, h1⟩
  | cons g rest ih =>
    intro acc man toUp exist h
    rw [List.foldl_cons] at h
    cases hh : s3.head (blob_key g) with
    | err e =>
      rw [scanStep_err hh, foldl_scanStep_error] at h
      cases h
    | found =>
      rw [scanStep_found hh] at h
      obtain ⟨hsub, htrans⟩ := ih _ man toUp exist h
      refine ⟨hsub, fun hinv p hp => ?_⟩
      refine htrans ?_ p hp
      intro q hq
      rcases mem_dictInsert hq with h1 | h1
      · exact hinv q h1
      · rw [h1]
        exact Or.inl hh
    | notFound =>
      rw [scanStep_notFound hh] at h
      obtain ⟨hsub, htrans⟩ := ih _ man toUp exist h
      refine ⟨fun x hx => hsub (List.mem_append_left _ hx), fun hinv p hp => ?_⟩
      refine htrans ?_ p hp
      intro q hq
      rcases mem_dictInsert hq with h1 | h1
      · rcases hinv q h1 with h2 | ⟨f, h2⟩
        · exact Or.inl h2
        · exact Or.inr ⟨f, List.mem_append_left _ h2⟩
      · rw [h1]
        exact Or.inr ⟨g, List.mem_append_right _ (List.mem_singleton.mpr rfl)⟩

theorem scan_fold_ok (s3 : BlobStore) :
    ∀ files : List SiteFile, (∀ f ∈ files, (s3.head (blob_key f)).isErr = false) →
    ∀ man0 toUp0 exist0,
      files.foldl (scanStep s3) (.ok (man0, toUp0, exist0)) = .ok
        (files.foldl (fun m f => dictInsert m f.path
            ⟨hash_file f.bytes, blob_key f, f.bytes.length⟩) man0,
         toUp0 ++ (files.filter (fun f => s3.head (blob_key f) == HeadResult.notFound)).map
            (fun f => (f, blob_key f)),
         exist0 ++ (files.filter (fun f => s3.head (blob_key f) == HeadResult.found)).map
            blob_key) := by
  intro files
  induction files with
  | nil => intro _ m t e; simp
  | cons g rest ih =>
    intro hok m t e
    have hg := hok g (List.mem_cons_self g rest)
    rw [List.foldl_cons]
    cases hh : s3.head (blob_key g) with
    | err e2 =>
      rw [hh] at hg
      simp [HeadResult.isErr] at hg
    | found =>
      rw [scanStep_found hh]
      rw [ih (fun f hf => hok f (List.mem_cons_of_mem g hf)) _ _ _]
      simp [List.filter_cons, hh, List.foldl_cons,
        show (HeadResult.found == HeadResult.notFound) = false from rfl,
        show (HeadResult.found == HeadResult.found) = true from rfl]
    | notFound =>
      rw [scanStep_notFound hh]
      rw [ih (fun f hf => hok f (List.mem_cons_of_mem g hf)) _ _ _]
      simp [List.filter_cons, hh, List.foldl_cons,
        show (HeadResult.notFound == HeadResult.notFound) = true from rfl,
        show (HeadResult.notFound == HeadResult.found) = false from rfl]

theorem uploadStep_error_absorb (s3 : BlobStore) (toUp : List (SiteFile × String))
    (evs : List StoreEv) (e : String) :
    toUp.foldl (uploadStep s3) (evs, .error e) = (evs, .error e) := by
  induction toUp with
  | nil => rfl
  | cons p rest ih => rw [List.foldl_cons]; exact ih

theorem uploadPhase_go (s3 : BlobStore) :
    ∀ toUp : List (SiteFile × String), (∀ p ∈ toUp, s3.put p.2 = true) →
    ∀ (evs0 : List StoreEv) (n0 : Nat),
      toUp.foldl (uploadStep s3) (evs0, .ok n0) =
        (evs0 ++ toUp.map (fun p => StoreEv.putBlob p.2),
         .ok (n0 + (toUp.map (fun p => p.1.bytes.length)).sum)) := by
  intro toUp
  induction toUp with
  | nil => intro _ evs0 n0; simp
  | cons p rest ih =>
    intro hput evs0 n0
    have hp := hput p (List.mem_cons_self p rest)
    rw [List.foldl_cons]
    have hstep : uploadStep s3 (evs0, .ok n0) p =
        (evs0 ++ [.putBlob p.2], .ok (n0 + p.1.bytes.length)) := by
      simp [uploadStep, hp]
    rw [hstep, ih (fun q hq => hput q (List.mem_cons_of_mem p hq))]
    simp [Nat.add_assoc]

theorem uploadPhase_ok_inv (s3 : BlobStore) :
    ∀ (toUp : List (SiteFile × String)) (evs0 : List StoreEv) (n0 : Nat),
      (∃ n, (toUp.foldl (uploadStep s3) (evs0, .ok n0)).2 = .ok n) →
      ∀ p ∈ toUp, s3.put p.2 = true := by
  intro toUp
  induction toUp with
  | nil => intro _ _ _ p hp; cases hp
  | cons q rest ih =>
    intro evs0 n0 hok p hp
    rw [List.foldl_cons] at hok
    cases hq : s3.put q.2 with
    | false =>
      have hstep : uploadStep s3 (evs0, .ok n0) q =
          (evs0, .error ("upload failed: " ++ q.2)) := by
        simp [uploadStep, hq]
      rw [hstep, uploadStep_error_absorb] at hok
      obtain ⟨n, hn⟩ := hok
      cases hn
    | true =>
      have hstep : uploadStep s3 (evs0, .ok n0) q =
          (evs0 ++ [.putBlob q.2], .ok (n0 + q.1.bytes.length)) := by
        simp [uploadStep, hq]
      rw [hstep] at hok
      rcases List.mem_cons.mp hp with he | he
      · rw [he]
        exact hq
      · exact ih _ _ hok p he

theorem uploadPhase_error_of_put_false (s3 : BlobStore) :
    ∀ (toUp : List (SiteFile × String)) (evs0 : List StoreEv) (n0 : Nat),
      (∃ p ∈ toUp, s3.put p.2 = false) →
      ∃ e, (toUp.foldl (uploadStep s3) (evs0, .ok n0)).2 = .error e := by
  intro toUp
  induction toUp with
  | nil => rintro _ _ ⟨p, hp, -⟩; cases hp
  | cons q rest ih =>
    rintro evs0 n0 ⟨p, hp, hpf⟩
    rw [List.foldl_cons]
    cases hq : s3.put q.2 with
    | false =>
      have hstep : uploadStep s3 (evs0, .ok n0) q =
          (evs0, .error ("upload failed: " ++ q.2)) := by
        simp [uploadStep, hq]
      rw [hstep, uploadStep_error_absorb]
      exact ⟨_, rfl⟩
    | true =>
      have hstep : uploadStep s3 (evs0, .ok n0) q =
          (evs0 ++ [.putBlob q.2], .ok (n0 + q.1.bytes.length)) := by
        simp [uploadStep, hq]
      rw [hstep]
      refine ih _ _ ⟨p, ?_, hpf⟩
      rcases List.mem_cons.mp hp with he | he
      · rw [he, hq] at hpf
        cases hpf
      · exact he

theorem uploadPhase_events (s3 : BlobStore) :
    ∀ (toUp : List (SiteFile × String)) (acc : List StoreEv × Except String Nat),
      ∀ ev ∈ (toUp.foldl (uploadStep s3) acc).1, ev ∈ acc.1 ∨ ∃ k, ev = .putBlob k := by
  intro toUp
  induction toUp with
  | nil => intro acc ev h; exact Or.inl h
  | cons p rest ih =>
    intro acc ev h
    rcases ih (uploadStep s3 acc p) ev h with h1 | h1
    · obtain ⟨evs, st⟩ := acc
      cases st with
      | error e =>
        have hstep : uploadStep s3 (evs, .error e) p = (evs, .error e) := rfl
        rw [hstep] at h1
        exact Or.inl h1
      | ok n =>
        by_cases hp : s3.put p.2
        · have hstep : uploadStep s3 (evs, .ok n) p =
              (evs ++ [.putBlob p.2], .ok (n + p.1.bytes.length)) := by
            simp [uploadStep, hp]
          rw [hstep] at h1
          rcases List.mem_append.mp h1 with h2 | h2
          · exact Or.inl h2
          · exact Or.inr ⟨p.2, List.mem_singleton.mp h2⟩
        · have hstep : uploadStep s3 (evs, .ok n) p =
              (evs, .error ("upload failed: " ++ p.2)) := by
            simp [uploadStep, hp]
          rw [hstep] at h1
          exact Or.inl h1
    · exact Or.inr h1

theorem countP_congr_eq {α : Type} (p q : α → Bool) (l : List α)
    (h : ∀ a ∈ l, p a = q a) : l.countP p = l.countP q := by
  induction l with
  | nil => rfl
  | cons a rest ih =>
    rw [List.countP_cons, List.countP_cons, h a (List.mem_cons_self a rest),
      ih (fun b hb => h b (List.mem_cons_of_mem a hb))]

theorem two_le_countP {α : Type} [DecidableEq α] {l : List α} {p : α → Bool} {a b : α}
    (ha : a ∈ l) (hb : b ∈ l) (hne : a ≠ b) (hpa : p a = true) (hpb : p b = true) :
    2 ≤ l.countP p := by
  have hperm : l.Perm (a :: l.erase a) := List.perm_cons_erase ha
  have hb2 : b ∈ l.erase a := (List.mem_erase_of_ne (fun e => hne e.symm)).mpr hb
  rw [hperm.countP_eq]
  rw [List.countP_cons, hpa]
  have hone : (if (true = true) then 1 else 0) = 1 := rfl
  rw [hone]
  have hpos : 0 < (l.erase a).countP p := List.countP_pos_iff.mpr ⟨b, hb2, hpb⟩
  omega

/-- C8: if any blob upload fails, or any existence check fails with a
non-404 error, `upload_site` raises and the deployment manifest object is
never written; when it succeeds, the manifest write is the last store
event, after every referenced blob was either found already present or
uploaded during this run. -/
theorem upload_site_manifest_safety (files : List SiteFile) (s3 : BlobStore)
    (name : String) :
    (∀ e, (upload_site files s3 name false).2 = .error e →
      StoreEv.putManifest ("manifests/" ++ name ++ ".json") ∉
        (upload_site files s3 name false).1) ∧
    (∀ st, (upload_site files s3 name false).2 = .ok st →
      ∃ evs, (upload_site files s3 name false).1 =
          evs ++ [.putManifest ("manifests/" ++ name ++ ".json")] ∧
        StoreEv.putManifest ("manifests/" ++ name ++ ".json") ∉ evs ∧
        ∀ p ∈ st.manifest, s3.head p.2.blob = .found ∨ StoreEv.putBlob p.2.blob ∈ evs) ∧
    ((∃ f ∈ files, (s3.head (blob_key f)).isErr = true) →
      ∃ e, (upload_site files s3 name false).2 = .error e) ∧
    ((∀ f ∈ files, (s3.head (blob_key f)).isErr = false) →
      (∃ f ∈ files, s3.head (blob_key f) = .notFound ∧ s3.put (blob_key f) = false) →
      ∃ e, (upload_site files s3 name false).2 = .error e) := by
  cases hscan : scanPhase files s3 with
  | error e0 =>
    have hres : upload_site files s3 name false = ([], .error e0) := by
      simp [upload_site, hscan]
    refine ⟨?_, ?_, ?_, ?_⟩
    · intro e _
      rw [hres]
      simp
    · intro st hst
      rw [hres] at hst
      cases hst
    · intro _
      exact ⟨e0, by rw [hres]⟩
    · intro _ _
      exact ⟨e0, by rw [hres]⟩
  | ok triple =>
    obtain ⟨man, toUp, exist⟩ := triple
    have hevents : ∀ ev ∈ (uploadPhase s3 toUp).1, ∃ k, ev = .putBlob k := by
      intro ev hev
      rcases uploadPhase_events s3 toUp ([], .ok 0) ev hev with h1 | h1
      · cases h1
      · exact h1
    cases hup : uploadPhase s3 toUp with
    | mk evs st2 =>
      cases st2 with
      | error e1 =>
        have hres : upload_site files s3 name false = (evs, .error e1) := by
          simp [upload_site, hscan, hup]
        refine ⟨?_, ?_, ?_, ?_⟩
        · intro e _
          rw [hres]
          intro hmem
          obtain ⟨k, hk⟩ := hevents _ (by rw [hup]; exact hmem)
          cases hk
        · intro st hst
          rw [hres] at hst
          cases hst
        · intro _
          exact ⟨e1, by rw [hres]⟩
        · intro _ _
          exact ⟨e1, by rw [hres]⟩
      | ok n =>
        have hres : upload_site files s3 name false =
            (evs ++ [.putManifest ("manifests/" ++ name ++ ".json")],
             .ok ⟨man.length, (man.map (fun p => p.2.size)).sum, toUp.length,
               exist.length, n, some ("manifests/" ++ name ++ ".json"), man⟩) := by
          simp [upload_site, hscan, hup]
        refine ⟨?_, ?_, ?_, ?_⟩
        · intro e he
          rw [hres] at he
          cases he
        · intro st hst
          rw [hres] at hst
          have hst2 : st = ⟨man.length, (man.map (fun p => p.2.size)).sum, toUp.length,
              exist.length, n, some ("manifests/" ++ name ++ ".json"), man⟩ :=
            (Except.ok.inj hst).symm
          refine ⟨evs, by rw [hres], ?_, ?_⟩
          · intro hmem
            obtain ⟨k, hk⟩ := hevents _ (by rw [hup]; exact hmem)
            cases hk
          · intro p hp
            have hpman : p ∈ man := by rw [hst2] at hp; exact hp
            have hinv := (scan_fold_inv s3 files ([], [], []) man toUp exist hscan).2
              (by intro q hq; cases hq) p hpman
            rcases hinv with h1 | ⟨f, h1⟩
            · exact Or.inl h1
            · right
              have hputs : ∀ q ∈ toUp, s3.put q.2 = true :=
                uploadPhase_ok_inv s3 toUp [] 0 ⟨n, by rw [show toUp.foldl (uploadStep s3)
                  ([], .ok 0) = uploadPhase s3 toUp from rfl, hup]⟩
              have hgo := uploadPhase_go s3 toUp hputs [] 0
              have hevs : evs = toUp.map (fun q => StoreEv.putBlob q.2) := by
                have : uploadPhase s3 toUp = (toUp.map (fun q => StoreEv.putBlob q.2),
                    .ok (0 + (toUp.map (fun q => q.1.bytes.length)).sum)) := hgo
                rw [hup] at this
                exact congrArg Prod.fst this
              rw [hevs]
              exact List.mem_map.mpr ⟨(f, p.2.blob), h1, rfl⟩
        · intro hex
          obtain ⟨e, he⟩ := scanPhase_error_of_err s3 files ([], [], []) hex
          rw [show files.foldl (scanStep s3) (.ok ([], [], [])) = scanPhase files s3
            from rfl, hscan] at he
          cases he
        · intro hok hfail
          obtain ⟨f, hf, hnf, hpf⟩ := hfail
          have hscan2 := scan_fold_ok s3 files hok [] [] []
          rw [show files.foldl (scanStep s3) (.ok ([], [], [])) = scanPhase files s3
            from rfl, hscan] at hscan2
          have htoUp : toUp = (files.filter
              (fun g => s3.head (blob_key g) == HeadResult.notFound)).map
              (fun g => (g, blob_key g)) := by
            have := (Except.ok.inj hscan2)
            have h2 := congrArg (fun t => t.2.1) this
            simpa using h2
          have hmem : (f, blob_key f) ∈ toUp := by
            rw [htoUp]
            refine List.mem_map.mpr ⟨f, List.mem_filter.mpr ⟨hf, ?_⟩, rfl⟩
            rw [hnf]
            rfl
          obtain ⟨e, he⟩ := uploadPhase_error_of_put_false s3 toUp [] 0
            ⟨(f, blob_key f), hmem, hpf⟩
          rw [show toUp.foldl (uploadStep s3) ([], .ok 0) = uploadPhase s3 toUp
            from rfl, hup] at he
          cases he

def wFiles : List SiteFile := [⟨"/a.bin", "", [1]⟩]

def wStore : BlobStore := ⟨fun _ => .notFound, fun _ => false⟩

theorem upload_site_manifest_safety_witness :
    (∃ e, (upload_site wFiles wStore "m" false).2 = .error e) ∧
    StoreEv.putManifest ("manifests/" ++ "m" ++ ".json") ∉
      (upload_site wFiles wStore "m" false).1 := by
  obtain ⟨hA, _, _, hD⟩ := upload_site_manifest_safety wFiles wStore "m"
  obtain ⟨e, he⟩ := hD (fun f _ => rfl)
    ⟨⟨"/a.bin", "", [1]⟩, List.mem_singleton.mpr rfl, rfl, rfl⟩
  exact ⟨⟨e, he⟩, hA e he⟩

theorem countP_map_eq {α β : Type} (p : β → Bool) (g : α → β) (l : List α) :
    (l.map g).countP p = l.countP (fun a => p (g a)) := by
  induction l with
  | nil => rfl
  | cons a rest ih =>
    rw [List.map_cons, List.countP_cons, List.countP_cons, ih]

theorem countP_filter_eq {α : Type} (p q : α → Bool) (l : List α) :
    (l.filter q).countP p = l.countP (fun a => p a && q a) := by
  induction l with
  | nil => rfl
  | cons a rest ih =>
    by_cases hq : q a = true
    · rw [List.filter_cons_of_pos hq, List.countP_cons, List.countP_cons, ih, hq]
      simp
    · have hqf : q a = false := by simpa using hq
      rw [List.filter_cons_of_neg (by simp [hqf]), List.countP_cons, ih, hqf]
      simp

theorem countP_false_eq {α : Type} (l : List α) : l.countP (fun _ => false) = 0 := by
  induction l with
  | nil => rfl
  | cons a rest ih => rw [List.countP_cons, ih]; simp

/-- C2 (amended): two distinct files whose bytes AND extension agree are
assigned the same blob key; when every existence check succeeds and every
put succeeds, a run over a store that lacks that blob uploads it once per
file bearing that key — hence at least twice, not exactly once — and a run
over a store that already has it uploads it zero times. -/
theorem blob_dedup_spec (files : List SiteFile) (s3 : BlobStore) (name : String)
    (f1 f2 : SiteFile)
    (h1 : f1 ∈ files) (h2 : f2 ∈ files) (hpath : f1.path ≠ f2.path)
    (hbytes : f1.bytes = f2.bytes) (hsuffix : f1.suffix = f2.suffix)
    (hok : ∀ k, (s3.head k).isErr = false)
    (hput : ∀ k, s3.put k = true) :
    blob_key f1 = blob_key f2 ∧
    (s3.head (blob_key f1) = .notFound →
      (upload_site files s3 name false).1.countP
          (fun ev => ev == StoreEv.putBlob (blob_key f1)) =
        files.countP (fun g => blob_key g == blob_key f1) ∧
      2 ≤ (upload_site files s3 name false).1.countP
          (fun ev => ev == StoreEv.putBlob (blob_key f1))) ∧
    (s3.head (blob_key f1) = .found →
      (upload_site files s3 name false).1.countP
          (fun ev => ev == StoreEv.putBlob (blob_key f1)) = 0) := by
  have hkey : blob_key f1 = blob_key f2 := by
    simp [blob_key, hbytes, hsuffix]
  have hscan2 : scanPhase files s3 = .ok
      (files.foldl (fun m f => dictInsert m f.path
          ⟨hash_file f.bytes, blob_key f, f.bytes.length⟩) [],
       (files.filter (fun g => s3.head (blob_key g) == HeadResult.notFound)).map
          (fun g => (g, blob_key g)),
       (files.filter (fun g => s3.head (blob_key g) == HeadResult.found)).map
          blob_key) :=
    scan_fold_ok s3 files (fun f _ => hok _) [] [] []
  have hup2 : uploadPhase s3
      ((files.filter (fun g => s3.head (blob_key g) == HeadResult.notFound)).map
          (fun g => (g, blob_key g))) =
      (((files.filter (fun g => s3.head (blob_key g) == HeadResult.notFound)).map
          (fun g => (g, blob_key g))).map (fun p => StoreEv.putBlob p.2),
       .ok (0 + ((((files.filter (fun g => s3.head (blob_key g) == HeadResult.notFound)).map
          (fun g => (g, blob_key g))).map (fun p => p.1.bytes.length)).sum))) :=
    uploadPhase_go s3 _ (fun p _ => hput p.2) [] 0
  have htrace : (upload_site files s3 name false).1 =
      (((files.filter (fun g => s3.head (blob_key g) == HeadResult.notFound)).map
          (fun g => (g, blob_key g))).map (fun p => StoreEv.putBlob p.2)) ++
        [.putManifest ("manifests/" ++ name ++ ".json")] := by
    simp [upload_site, hscan2, hup2]
  have hbase : (upload_site files s3 name false).1.countP
      (fun ev => ev == StoreEv.putBlob (blob_key f1)) =
      files.countP (fun g =>
        (StoreEv.putBlob (blob_key g) == StoreEv.putBlob (blob_key f1)) &&
        (s3.head (blob_key g) == HeadResult.notFound)) := by
    rw [htrace, List.countP_append, countP_map_eq, countP_map_eq, countP_filter_eq]
    have hman : ((StoreEv.putManifest ("manifests/" ++ name ++ ".json")) ==
        StoreEv.putBlob (blob_key f1)) = false := by
      simp
    rw [List.countP_cons, hman]
    simp [List.countP_nil]
  refine ⟨hkey, ?_, ?_⟩
  · intro hnf
    have hcnt : (upload_site files s3 name false).1.countP
        (fun ev => ev == StoreEv.putBlob (blob_key f1)) =
        files.countP (fun g => blob_key g == blob_key f1) := by
      rw [hbase]
      refine countP_congr_eq _ _ files ?_
      intro g _
      by_cases hbk : blob_key g = blob_key f1
      · rw [hbk, hnf]
        simp
      · have hb1 : (StoreEv.putBlob (blob_key g) ==
            StoreEv.putBlob (blob_key f1)) = false := by
          simp [hbk]
        rw [hb1]
        simp [hbk]
    refine ⟨hcnt, ?_⟩
    rw [hcnt]
    refine two_le_countP h1 h2 (fun he => hpath (congrArg SiteFile.path he)) ?_ ?_
    · simp
    · simp [hkey]
  · intro hfd
    rw [hbase]
    have hz : files.countP (fun g =>
        (StoreEv.putBlob (blob_key g) == StoreEv.putBlob (blob_key f1)) &&
        (s3.head (blob_key g) == HeadResult.notFound)) =
        files.countP (fun _ => false) := by
      refine countP_congr_eq _ _ files ?_
      intro g _
      by_cases hbk : blob_key g = blob_key f1
      · rw [hbk, hfd]
        simp
      · have hb1 : (StoreEv.putBlob (blob_key g) ==
            StoreEv.putBlob (blob_key f1)) = false := by
          simp [hbk]
        rw [hb1]
        simp
    rw [hz, countP_false_eq]

set_option maxRecDepth 10000 in
theorem blob_dedup_cex :
    (SiteFile.mk "/a.txt" ".txt" []).path ≠ (SiteFile.mk "/b.css" ".css" []).path ∧
    (SiteFile.mk "/a.txt" ".txt" []).bytes = (SiteFile.mk "/b.css" ".css" []).bytes ∧
    blob_key ⟨"/a.txt", ".txt", []⟩ ≠ blob_key ⟨"/b.css", ".css", []⟩ ∧
    (upload_site [⟨"/x/a.txt", ".txt", []⟩, ⟨"/y/a.txt", ".txt", []⟩]
        ⟨fun _ => .notFound, fun _ => true⟩ "m" false).1.countP
      (fun ev => ev == StoreEv.putBlob (blob_key ⟨"/x/a.txt", ".txt", []⟩)) = 2 := by
  refine ⟨by decide, rfl, by decide, by decide⟩

theorem blob_dedup_spec_witness :
    blob_key ⟨"/x/a.txt", ".txt", ([] : List Nat)⟩ = blob_key ⟨"/y/a.txt", ".txt", []⟩ ∧
    2 ≤ (upload_site [⟨"/x/a.txt", ".txt", []⟩, ⟨"/y/a.txt", ".txt", []⟩]
        ⟨fun _ => .notFound, fun _ => true⟩ "m" false).1.countP
      (fun ev => ev == StoreEv.putBlob (blob_key ⟨"/x/a.txt", ".txt", []⟩)) := by
  obtain ⟨hk, hnf, -⟩ := blob_dedup_spec
    [⟨"/x/a.txt", ".txt", []⟩, ⟨"/y/a.txt", ".txt", []⟩]
    ⟨fun _ => .notFound, fun _ => true⟩ "m"
    ⟨"/x/a.txt", ".txt", []⟩ ⟨"/y/a.txt", ".txt", []⟩
    (List.mem_cons_self _ _) (List.mem_cons_of_mem _ (List.mem_singleton.mpr rfl))
    (by decide) rfl rfl (fun k => rfl) (fun k => rfl)
  exact ⟨hk, (hnf rfl).2⟩
